import Mathlib

/-!
Verification of the openclaw-mini agent runtime core.

JavaScript strings are modelled as `List Char` (or Lean `String`, whose data
is a `List Char`); numbers that carry fractional values (delays, scores) are
modelled as `ℚ`.  Maps keyed by strings are modelled as functions
`String → _`.  Each definition is a shallow embedding of the correspondingly
named function of the TypeScript source.
-/

/- ===================== Character / string primitives ===================== -/

/-- ASCII lowercasing of a character, as performed by `toLowerCase` on the
character sets appearing in this code base (Lean core `Char.toLower` has
exactly the `A`–`Z` ↦ `a`–`z` behaviour). -/
def lowerChar (c : Char) : Char := Char.toLower c

/-- Whitespace test used by `trim`, on the ASCII whitespace characters. -/
def isWSChar (c : Char) : Bool :=
  c.toNat = 32 || c.toNat = 9 || c.toNat = 10 || c.toNat = 13 || c.toNat = 11 || c.toNat = 12

/-- `String.prototype.toLowerCase` on the character list of a string. -/
def lowerL (l : List Char) : List Char := l.map lowerChar

/-- `String.prototype.trim`: drop whitespace from both ends. -/
def trimL (l : List Char) : List Char :=
  ((l.dropWhile isWSChar).reverse.dropWhile isWSChar).reverse

/-- `needle` is a prefix of `hay` (character-exact). -/
def isPrefixL : List Char → List Char → Bool
  | [], _ => true
  | _ :: _, [] => false
  | p :: ps, c :: cs => p == c && isPrefixL ps cs

/-- `String.prototype.includes`: `needle` occurs contiguously in `hay`. -/
def containsL (hay needle : List Char) : Bool :=
  match hay with
  | [] => needle.isEmpty
  | _ :: rest => isPrefixL needle hay || containsL rest needle

/-- `String.prototype.startsWith`. -/
def startsWithL (hay needle : List Char) : Bool := isPrefixL needle hay

theorem char_toNat_ofNat_valid (n : Nat) (h : n.isValidChar) : (Char.ofNat n).toNat = n := by
  simp only [Char.ofNat, h, dif_pos, Char.ofNatAux, Char.toNat]
  rfl

theorem lowerChar_toNat (c : Char) :
    (lowerChar c).toNat = if c.toNat ≥ 65 ∧ c.toNat ≤ 90 then c.toNat + 32 else c.toNat := by
  show (Char.toLower c).toNat = _
  unfold Char.toLower
  by_cases h : c.toNat ≥ 65 ∧ c.toNat ≤ 90
  · have hv : (c.toNat + 32).isValidChar := by left; omega
    rw [if_pos h, if_pos h, char_toNat_ofNat_valid _ hv]
  · rw [if_neg h, if_neg h]

theorem lowerChar_eq_self (d : Char) (h : ¬(d.toNat ≥ 65 ∧ d.toNat ≤ 90)) : lowerChar d = d := by
  show Char.toLower d = d
  unfold Char.toLower
  rw [if_neg h]

theorem lowerChar_idem (c : Char) : lowerChar (lowerChar c) = lowerChar c := by
  apply lowerChar_eq_self
  rw [lowerChar_toNat c]
  by_cases h : c.toNat ≥ 65 ∧ c.toNat ≤ 90
  · rw [if_pos h]; omega
  · rw [if_neg h]; omega

theorem isWSChar_lowerChar (c : Char) : isWSChar (lowerChar c) = isWSChar c := by
  have hn := lowerChar_toNat c
  unfold isWSChar
  rw [Bool.eq_iff_iff]
  simp only [Bool.or_eq_true, decide_eq_true_eq]
  split at hn <;> omega

theorem lowerL_idem (l : List Char) : lowerL (lowerL l) = lowerL l := by
  unfold lowerL
  rw [List.map_map]
  apply List.map_congr_left
  intro c _
  exact lowerChar_idem c

/-- A nonempty pattern never occurs in the empty string. -/
theorem containsL_nil (p : Char) (ps : List Char) :
    containsL [] (p :: ps) = false := by
  simp [containsL, List.isEmpty]

/- ===================== Error classifier (provider/errors.ts) ===================== -/

/-- `String.prototype.includes` on Lean strings. -/
def strContains (hay needle : String) : Bool := containsL hay.data needle.data

/-- `String.prototype.toLowerCase` on Lean strings. -/
def lowerStr (s : String) : String := String.mk (lowerL s.data)

/-- `CONTEXT_OVERFLOW_PATTERNS` from provider/errors.ts. -/
def CONTEXT_OVERFLOW_PATTERNS : List String :=
  ["request_too_large",
   "request exceeds the maximum size",
   "context length exceeded",
   "maximum context length",
   "prompt is too long",
   "exceeds model context window",
   "context overflow"]

/-- `matchesAny(message, patterns)`: case-fold the message and test each
pattern for substring occurrence. -/
def matchesAny (message : String) (patterns : List String) : Bool :=
  patterns.any (fun p => strContains (lowerStr message) p)

/-- `isContextOverflowError(message?)`: false on an absent or empty message,
otherwise pattern list match or the `413` ∧ `too large` combination. -/
def isContextOverflowError : Option String → Bool
  | none => false
  | some message =>
    if message.data.isEmpty then false
    else if matchesAny message CONTEXT_OVERFLOW_PATTERNS then true
    else strContains (lowerStr message) "413" && strContains (lowerStr message) "too large"

theorem strContains_lower_ne_nil {msg needle : String} (hu : needle.data ≠ [])
    (h : strContains (lowerStr msg) needle = true) : msg.data ≠ [] := by
  intro hnil
  unfold strContains lowerStr lowerL at h
  rw [hnil] at h
  simp only [List.map_nil] at h
  exact hu (by simpa [containsL, List.isEmpty_iff] using h)

theorem isContextOverflowError_of_pattern {msg pat : String}
    (hmem : pat ∈ CONTEXT_OVERFLOW_PATTERNS)
    (h : strContains (lowerStr msg) pat = true) :
    isContextOverflowError (some msg) = true := by
  have hne : msg.data ≠ [] := by
    revert h
    fin_cases hmem <;> exact fun h => strContains_lower_ne_nil (by decide) h
  have hany : matchesAny msg CONTEXT_OVERFLOW_PATTERNS = true := by
    unfold matchesAny
    rw [List.any_eq_true]
    exact ⟨pat, hmem, h⟩
  simp only [isContextOverflowError]
  rw [if_neg (by simpa [List.isEmpty_iff] using hne), if_pos hany]

/-- Claim C2 (amended): `isContextOverflowError` returns true for every message
containing (case-insensitively) the pattern `request_too_large` (the source
pattern uses underscores, not spaces), for every message containing
`context length exceeded`, for every message containing `prompt is too long`,
and for every message containing both `413` and `too large`; it returns false
when the message is absent or empty. -/
theorem claim_C2_isContextOverflowError (msg : String) :
    (strContains (lowerStr msg) "request_too_large" = true →
      isContextOverflowError (some msg) = true) ∧
    (strContains (lowerStr msg) "context length exceeded" = true →
      isContextOverflowError (some msg) = true) ∧
    (strContains (lowerStr msg) "prompt is too long" = true →
      isContextOverflowError (some msg) = true) ∧
    (strContains (lowerStr msg) "413" = true →
      strContains (lowerStr msg) "too large" = true →
      isContextOverflowError (some msg) = true) ∧
    isContextOverflowError none = false ∧
    isContextOverflowError (some "") = false := by
  refine ⟨?_, ?_, ?_, ?_, rfl, by decide⟩
  · exact fun h => isContextOverflowError_of_pattern (by decide) h
  · exact fun h => isContextOverflowError_of_pattern (by decide) h
  · exact fun h => isContextOverflowError_of_pattern (by decide) h
  · intro h413 hlarge
    have hne : msg.data ≠ [] := strContains_lower_ne_nil (by decide) h413
    simp only [isContextOverflowError]
    rw [if_neg (by simpa [List.isEmpty_iff] using hne)]
    by_cases hm : matchesAny msg CONTEXT_OVERFLOW_PATTERNS = true
    · rw [if_pos hm]
    · rw [if_neg hm, h413, hlarge]
      rfl

/-- Witness for Claim C2: each amended branch realized at a concrete message. -/
theorem claim_C2_isContextOverflowError_witness :
    isContextOverflowError (some "Error: request_too_large") = true ∧
    isContextOverflowError (some "CONTEXT LENGTH EXCEEDED") = true ∧
    isContextOverflowError (some "the prompt is too long.") = true ∧
    isContextOverflowError (some "HTTP 413: body too large") = true :=
  ⟨(claim_C2_isContextOverflowError _).1 (by decide),
   (claim_C2_isContextOverflowError _).2.1 (by decide),
   (claim_C2_isContextOverflowError _).2.2.1 (by decide),
   (claim_C2_isContextOverflowError _).2.2.2.1 (by decide) (by decide)⟩

/-- Counterexample to Claim C2 as stated: the message "request too large"
(spaces, as the claim spells the pattern) contains the claimed pattern yet the
classifier rejects it — the source pattern list has `request_too_large` with
underscores. -/
theorem claim_C2_counterexample :
    strContains (lowerStr "request too large") "request too large" = true ∧
    isContextOverflowError (some "request too large") = false := by
  constructor
  · decide
  · decide

/- ===================== Event bus (agent-events.ts) ===================== -/

/-- The fields of an emission that the sequence logic reads: the run id, the
stream name, and the optional `phase` field of the data map. -/
structure AgentEventIn where
  runId : String
  stream : String
  phase : Option String

/-- `emitAgentEvent`.  The `seqByRun` map is modelled as a total function with
`0` for absent keys (the source reads `seqByRun.get(runId) ?? 0`, so deleting
a key and mapping it to `0` are indistinguishable).  Returns the `seq`
assigned to the event and the updated map.  Note the source deletes the
counter whenever `data.phase` is `end` or `error`, with no check of the
`stream` field. -/
def emitAgentEvent (seqByRun : String → Nat) (e : AgentEventIn) : Nat × (String → Nat) :=
  let nextSeq := seqByRun e.runId + 1
  let afterSet : String → Nat := fun r => if r = e.runId then nextSeq else seqByRun r
  let afterCleanup : String → Nat :=
    if e.phase = some "end" ∨ e.phase = some "error" then
      fun r => if r = e.runId then 0 else afterSet r
    else afterSet
  (nextSeq, afterCleanup)

/-- Emit a list of events in order, collecting the assigned `seq` values. -/
def emitAll (seqByRun : String → Nat) : List AgentEventIn → List Nat × (String → Nat)
  | [] => ([], seqByRun)
  | e :: rest =>
    let r1 := emitAgentEvent seqByRun e
    let r2 := emitAll r1.2 rest
    (r1.1 :: r2.1, r2.2)

/-- An event trace a single run actually produces in `runAgentLoop`: the
lifecycle `start` event, then a tool call's `start`/`end` observability
events (stream `tool`), then an assistant text delta. -/
def c1BugTrace : List AgentEventIn :=
  [⟨"run-1", "lifecycle", some "start"⟩,
   ⟨"run-1", "tool", some "start"⟩,
   ⟨"run-1", "tool", some "end"⟩,
   ⟨"run-1", "assistant", none⟩]

/-- Claim C1 (code bug): on the trace above — all four events carry the same
run id — the emitted `seq` values are `[1, 2, 3, 1]`, not strictly
increasing: the tool-stream event with `phase = end` erases the per-run
counter, so the following event restarts at 1.  The source's own comment
says the counter is cleaned up when the run ends, and the specification
requires strictly increasing `seq` per run, so the missing stream check is a
slip in the code. -/
theorem claim_C1_seq_counter_reset :
    (emitAll (fun _ => 0) c1BugTrace).1 = [1, 2, 3, 1] ∧
    ¬ List.Chain' (· < ·) (emitAll (fun _ => 0) c1BugTrace).1 := by
  have h1 : (emitAll (fun _ => 0) c1BugTrace).1 = [1, 2, 3, 1] := by decide
  refine ⟨h1, ?_⟩
  rw [h1]
  norm_num [List.chain'_cons]

/- ===================== Tool policy (tool-policy.ts) ===================== -/

/-- `normalizeToolName`: trim then lowercase. -/
def normalizeToolName (name : String) : List Char := lowerL (trimL name.data)

/-- Matching against the regex `compilePattern` builds for a pattern that
contains `*`: the pattern's literal characters must match in order, with
each `*` standing for any (possibly empty) run of characters (the source
escapes every other regex metacharacter, so the glob semantics is exact). -/
def globMatch (pat s : List Char) : Bool :=
  match pat, s with
  | [], rest => rest.isEmpty
  | p :: ps, rest =>
    if p = '*' then
      match rest with
      | [] => globMatch ps []
      | _ :: cs => globMatch ps rest || globMatch (p :: ps) cs
    else
      match rest with
      | [] => false
      | c :: cs => p == c && globMatch ps cs
termination_by (pat.length, s.length)

/-- `matchesPattern(name, pattern)`: empty pattern never matches, `*` matches
everything, a star-free pattern is compiled to `^pattern$` (literal equality
for the tool-name alphabet; the source does not escape the star-free branch,
so regex metacharacters would behave as regexes — the claims here only
concern literal names and `*`), otherwise glob matching.  Both sides are
trimmed and lowercased. -/
def matchesPattern (name : String) (pattern : String) : Bool :=
  let trimmed := lowerL (trimL pattern.data)
  if trimmed.isEmpty then false
  else if trimmed = ['*'] then true
  else if ¬ trimmed.contains '*' then normalizeToolName name == trimmed
  else globMatch trimmed (normalizeToolName name)

/-- `ToolPolicy`: optional allow and deny pattern lists. -/
structure ToolPolicy where
  allow : Option (List String)
  deny : Option (List String)

/-- `isToolAllowed(name, policy?)`: no policy allows everything; any deny
match rejects; an empty allow list accepts; otherwise some allow pattern
must match. -/
def isToolAllowed (name : String) (policy : Option ToolPolicy) : Bool :=
  match policy with
  | none => true
  | some p =>
    let deny := p.deny.getD []
    let allow := p.allow.getD []
    if deny.any (fun pat => matchesPattern name pat) then false
    else if allow.isEmpty then true
    else allow.any (fun pat => matchesPattern name pat)

theorem trimL_lowerL (l : List Char) : trimL (lowerL l) = lowerL (trimL l) := by
  have hws : (isWSChar ∘ lowerChar) = isWSChar := funext isWSChar_lowerChar
  unfold trimL lowerL
  rw [List.dropWhile_map, hws, ← List.map_reverse, List.dropWhile_map, hws, ← List.map_reverse]

theorem normalizeToolName_lowerStr (name : String) :
    normalizeToolName (lowerStr name) = normalizeToolName name := by
  show lowerL (trimL (lowerL name.data)) = lowerL (trimL name.data)
  rw [trimL_lowerL, lowerL_idem]

theorem matchesPattern_lowerStr (name pattern : String) :
    matchesPattern (lowerStr name) pattern = matchesPattern name pattern := by
  unfold matchesPattern
  rw [normalizeToolName_lowerStr]

/-- Claim C9: deny patterns take precedence over allow patterns (any deny
match rejects, whatever the allow list holds); with an empty or absent allow
list every name that matches no deny pattern is allowed; matching is
case-insensitive and the pattern `*` matches every name. -/
theorem claim_C9_isToolAllowed (name : String) (p : ToolPolicy) :
    ((∃ d ∈ p.deny.getD [], matchesPattern name d = true) →
      isToolAllowed name (some p) = false) ∧
    (p.allow.getD [] = [] → (∀ d ∈ p.deny.getD [], matchesPattern name d = false) →
      isToolAllowed name (some p) = true) ∧
    matchesPattern name "*" = true ∧
    (∀ pat : String, matchesPattern (lowerStr name) pat = matchesPattern name pat) := by
  refine ⟨?_, ?_, ?_, fun pat => matchesPattern_lowerStr name pat⟩
  · intro hdeny
    have hany : (p.deny.getD []).any (fun pat => matchesPattern name pat) = true := by
      rw [List.any_eq_true]
      exact hdeny
    simp only [isToolAllowed]
    rw [if_pos hany]
  · intro hallow hdeny
    have hany : (p.deny.getD []).any (fun pat => matchesPattern name pat) = false := by
      rw [List.any_eq_false]
      intro d hd
      simp [hdeny d hd]
    simp only [isToolAllowed]
    rw [if_neg (by simp [hany]), if_pos (by simp [hallow])]
  · have ht : lowerL (trimL (String.data "*")) = ['*'] := by decide
    simp [matchesPattern, ht]

/-- Witness for Claim C9: a denied name that an allow pattern also covers, an
allow-absent policy, the `*` wildcard, and case-insensitivity, each at
concrete inputs. -/
theorem claim_C9_isToolAllowed_witness :
    isToolAllowed "EXEC" (some ⟨some ["*"], some ["exec"]⟩) = false ∧
    isToolAllowed "read" (some ⟨none, some ["write", "edit"]⟩) = true ∧
    matchesPattern "memory_search" "*" = true ∧
    matchesPattern (lowerStr "Read") "read" = matchesPattern "Read" "read" :=
  ⟨(claim_C9_isToolAllowed "EXEC" _).1 ⟨"exec", by decide, by decide⟩,
   (claim_C9_isToolAllowed "read" _).2.1 (by decide) (by decide),
   (claim_C9_isToolAllowed "memory_search" ⟨none, none⟩).2.2.1,
   (claim_C9_isToolAllowed "Read" ⟨none, none⟩).2.2.2 "read"⟩

/- ===================== Session keys (session-key.ts) ===================== -/

def DEFAULT_AGENT_ID : List Char := "main".data

def DEFAULT_MAIN_KEY : List Char := "main".data

/-- Character class `[a-z0-9]` of `VALID_ID_RE`, with its `i` flag
(char codes: `a`–`z` 97–122, `A`–`Z` 65–90, `0`–`9` 48–57). -/
def isAlnumCI (c : Char) : Bool :=
  (97 ≤ c.toNat && c.toNat ≤ 122) || (65 ≤ c.toNat && c.toNat ≤ 90) ||
  (48 ≤ c.toNat && c.toNat ≤ 57)

/-- Character class `[a-z0-9_-]` of `VALID_ID_RE`, case-insensitive
(`_` is 95, `-` is 45). -/
def isIdTailCI (c : Char) : Bool := isAlnumCI c || c.toNat = 95 || c.toNat = 45

/-- `VALID_ID_RE.test`: `/^[a-z0-9][a-z0-9_-]{0,63}$/i`. -/
def validIdTest (l : List Char) : Bool :=
  match l with
  | [] => false
  | c :: cs => isAlnumCI c && cs.all isIdTailCI && decide (cs.length ≤ 63)

/-- Complement character class of `INVALID_CHARS_RE = /[^a-z0-9_-]+/g`; the
replacement runs over the already-lowercased string. -/
def isValidIdCharL (c : Char) : Bool :=
  (97 ≤ c.toNat && c.toNat ≤ 122) || (48 ≤ c.toNat && c.toNat ≤ 57) ||
  c.toNat = 95 || c.toNat = 45

/-- `.replace(INVALID_CHARS_RE, "-")`: each maximal run of invalid characters
becomes a single dash.  The boolean argument records whether the previous
character was part of an invalid run. -/
def replaceRunsGo : Bool → List Char → List Char
  | _, [] => []
  | inRun, c :: cs =>
    if isValidIdCharL c then c :: replaceRunsGo false cs
    else if inRun then replaceRunsGo true cs
    else '-' :: replaceRunsGo true cs

def replaceInvalidRuns (l : List Char) : List Char := replaceRunsGo false l

/-- `.replace(LEADING_DASH_RE, "")` with `LEADING_DASH_RE = /^-+/`. -/
def stripLeadingDashes (l : List Char) : List Char := l.dropWhile (fun c => c == '-')

/-- `.replace(TRAILING_DASH_RE, "")`, where `TRAILING_DASH_RE` matches a
trailing run of dashes. -/
def stripTrailingDashes (l : List Char) : List Char :=
  (l.reverse.dropWhile (fun c => c == '-')).reverse

/-- The non-conforming branch of `normalizeAgentId`: lowercase, collapse
invalid runs to `-`, strip leading and trailing dashes, truncate to 64. -/
def normSlug (value : List Char) : List Char :=
  (stripTrailingDashes (stripLeadingDashes (replaceInvalidRuns (lowerL (trimL value))))).take 64

/-- `normalizeAgentId(value)`: empty → `main`; conforming ids are lowercased;
otherwise `normSlug`, defaulting to `main` if nothing is left. -/
def normalizeAgentId (value : List Char) : List Char :=
  if trimL value = [] then DEFAULT_AGENT_ID
  else if validIdTest (trimL value) then lowerL (trimL value)
  else if normSlug value = [] then DEFAULT_AGENT_ID
  else normSlug value

/-- `normalizeToken(value)`: trim then lowercase. -/
def normalizeToken (value : List Char) : List Char := lowerL (trimL value)

/-- `normalizeMainKey(value)`: empty → `main`, else trim and lowercase. -/
def normalizeMainKey (value : List Char) : List Char :=
  let trimmed := trimL value
  if trimmed = [] then DEFAULT_MAIN_KEY else lowerL trimmed

/-- `buildAgentMainSessionKey({agentId, mainKey})`. -/
def buildAgentMainSessionKey (agentId : List Char) (mainKey : Option (List Char)) : List Char :=
  "agent:".data ++ normalizeAgentId agentId ++ ":".data ++ normalizeMainKey (mainKey.getD [])

/-- `toAgentStoreSessionKey({agentId, requestKey, mainKey})`; the source's
`raw` and `lowered` locals are inlined. -/
def toAgentStoreSessionKey (agentId : List Char) (requestKey : Option (List Char))
    (mainKey : Option (List Char)) : List Char :=
  if trimL (requestKey.getD []) = [] ∨
      normalizeToken (trimL (requestKey.getD [])) = DEFAULT_MAIN_KEY then
    buildAgentMainSessionKey agentId mainKey
  else if startsWithL (lowerL (trimL (requestKey.getD []))) "agent:".data then
    lowerL (trimL (requestKey.getD []))
  else
    "agent:".data ++ normalizeAgentId agentId ++ ":".data ++ lowerL (trimL (requestKey.getD []))

/-- `resolveSessionKey({agentId, sessionId, sessionKey})`: normalize the agent
id, prefer an explicit session key, then a session id, else the main key. -/
def resolveSessionKey (agentId sessionId sessionKey : Option (List Char)) : List Char :=
  if trimL (sessionKey.getD []) ≠ [] then
    toAgentStoreSessionKey (normalizeAgentId (agentId.getD DEFAULT_AGENT_ID))
      (some (trimL (sessionKey.getD []))) none
  else if trimL (sessionId.getD []) ≠ [] then
    toAgentStoreSessionKey (normalizeAgentId (agentId.getD DEFAULT_AGENT_ID))
      (some (trimL (sessionId.getD []))) none
  else
    buildAgentMainSessionKey (normalizeAgentId (agentId.getD DEFAULT_AGENT_ID))
      (some DEFAULT_MAIN_KEY)

/-- Both ends of the character list are free of whitespace. -/
def wsFreeEnds (l : List Char) : Prop :=
  (∀ c, l.head? = some c → isWSChar c = false) ∧
  (∀ c, l.getLast? = some c → isWSChar c = false)

theorem dropWhile_eq_self_of_head {p : Char → Bool} {l : List Char}
    (h : ∀ c, l.head? = some c → p c = false) : l.dropWhile p = l := by
  cases l with
  | nil => rfl
  | cons c cs =>
    have hc := h c rfl
    simp [List.dropWhile_cons, hc]

theorem trimL_eq_self {l : List Char} (h : wsFreeEnds l) : trimL l = l := by
  unfold trimL
  rw [dropWhile_eq_self_of_head h.1]
  rw [dropWhile_eq_self_of_head (p := isWSChar) (l := l.reverse)
    (fun c hc => h.2 c (by rwa [List.head?_reverse] at hc))]
  exact List.reverse_reverse l

theorem head?_dropWhile_false {p : Char → Bool} {l : List Char} {c : Char}
    (h : (l.dropWhile p).head? = some c) : p c = false := by
  have := List.head?_dropWhile_not p l
  rw [h] at this
  exact this

theorem getLast?_dropWhile {p : Char → Bool} {l : List Char}
    (h : l.dropWhile p ≠ []) : (l.dropWhile p).getLast? = l.getLast? := by
  obtain ⟨t, ht⟩ := List.dropWhile_suffix (l := l) p
  conv_rhs => rw [← ht]
  rw [List.getLast?_append]
  cases hb : (l.dropWhile p).getLast? with
  | none => exact absurd (List.getLast?_eq_none_iff.mp hb) h
  | some b => rfl

theorem wsFreeEnds_trimL (l : List Char) : wsFreeEnds (trimL l) := by
  constructor
  · intro c hc
    unfold trimL at hc
    rw [List.head?_reverse] at hc
    by_cases hne : (l.dropWhile isWSChar).reverse.dropWhile isWSChar = []
    · rw [hne] at hc
      cases hc
    · rw [getLast?_dropWhile hne, List.getLast?_reverse] at hc
      exact head?_dropWhile_false hc
  · intro c hc
    unfold trimL at hc
    rw [List.getLast?_reverse] at hc
    exact head?_dropWhile_false hc

theorem wsFreeEnds_lowerL {l : List Char} (h : wsFreeEnds l) : wsFreeEnds (lowerL l) := by
  constructor
  · intro c hc
    unfold lowerL at hc
    rw [List.head?_map] at hc
    cases hd : l.head? with
    | none => rw [hd] at hc; cases hc
    | some d =>
      rw [hd] at hc
      cases hc
      rw [isWSChar_lowerChar]
      exact h.1 d hd
  · intro c hc
    unfold lowerL at hc
    rw [List.getLast?_map] at hc
    cases hd : l.getLast? with
    | none => rw [hd] at hc; cases hc
    | some d =>
      rw [hd] at hc
      cases hc
      rw [isWSChar_lowerChar]
      exact h.2 d hd

theorem isPrefixL_iff_append {p l : List Char} : isPrefixL p l = true ↔ ∃ t, l = p ++ t := by
  induction p generalizing l with
  | nil => simp [isPrefixL]
  | cons x xs ih =>
    cases l with
    | nil =>
      simp only [isPrefixL]
      constructor
      · intro h; cases h
      · rintro ⟨t, ht⟩; cases ht
    | cons c cs =>
      simp only [isPrefixL, Bool.and_eq_true, beq_iff_eq, ih]
      constructor
      · rintro ⟨rfl, t, rfl⟩; exact ⟨t, rfl⟩
      · rintro ⟨t, ht⟩
        injection ht with h1 h2
        exact ⟨h1.symm, t, h2⟩

theorem startsWithL_append (p t : List Char) : startsWithL (p ++ t) p = true := by
  unfold startsWithL
  exact isPrefixL_iff_append.mpr ⟨t, rfl⟩

theorem isAlnumCI_lowerChar (c : Char) : isAlnumCI (lowerChar c) = isAlnumCI c := by
  have hn := lowerChar_toNat c
  unfold isAlnumCI
  rw [Bool.eq_iff_iff]
  simp only [Bool.or_eq_true, Bool.and_eq_true, decide_eq_true_eq]
  split at hn <;> omega

theorem isIdTailCI_lowerChar (c : Char) : isIdTailCI (lowerChar c) = isIdTailCI c := by
  have hn := lowerChar_toNat c
  unfold isIdTailCI
  rw [isAlnumCI_lowerChar, Bool.eq_iff_iff]
  simp only [Bool.or_eq_true, decide_eq_true_eq]
  split at hn
  · have ha : isAlnumCI c = true := by
      unfold isAlnumCI
      simp only [Bool.or_eq_true, Bool.and_eq_true, decide_eq_true_eq]
      omega
    simp [ha]
  · rw [hn]

theorem isValidIdCharL_lowerChar_fixed {c : Char} (h : isValidIdCharL c = true) :
    lowerChar c = c := by
  unfold isValidIdCharL at h
  simp only [Bool.or_eq_true, Bool.and_eq_true, decide_eq_true_eq] at h
  exact lowerChar_eq_self c (by omega)

theorem isValidIdCharL_not_ws {c : Char} (h : isValidIdCharL c = true) :
    isWSChar c = false := by
  unfold isValidIdCharL at h
  unfold isWSChar
  simp only [Bool.or_eq_true, Bool.and_eq_true, decide_eq_true_eq] at h ⊢
  simp only [Bool.or_eq_false_iff, decide_eq_false_iff_not]
  omega

theorem validIdTest_lowerL (l : List Char) : validIdTest (lowerL l) = validIdTest l := by
  cases l with
  | nil => rfl
  | cons c cs =>
    show validIdTest (lowerChar c :: cs.map lowerChar) = _
    simp only [validIdTest]
    rw [isAlnumCI_lowerChar, List.all_map, List.length_map]
    have hf : (isIdTailCI ∘ lowerChar) = isIdTailCI := funext isIdTailCI_lowerChar
    rw [hf]

theorem replaceRunsGo_chars {c : Char} : ∀ (b : Bool) (l : List Char),
    c ∈ replaceRunsGo b l → isValidIdCharL c = true := by
  intro b l
  induction l generalizing b with
  | nil => intro h; cases h
  | cons x xs ih =>
    intro h
    unfold replaceRunsGo at h
    by_cases hx : isValidIdCharL x = true
    · rw [if_pos hx] at h
      cases h with
      | head => exact hx
      | tail _ h => exact ih false h
    · rw [if_neg hx] at h
      cases b with
      | true => exact ih true (by simpa using h)
      | false =>
        simp only [Bool.false_eq_true, if_false] at h
        cases h with
        | head => decide
        | tail _ h => exact ih true h

theorem replaceRunsGo_id {l : List Char} (h : ∀ c ∈ l, isValidIdCharL c = true) :
    ∀ b : Bool, replaceRunsGo b l = l := by
  induction l with
  | nil => intro b; rfl
  | cons x xs ih =>
    intro b
    unfold replaceRunsGo
    rw [if_pos (h x (List.mem_cons_self x xs))]
    rw [ih (fun c hc => h c (List.mem_cons_of_mem x hc)) false]

theorem replaceRunsGo_length : ∀ (b : Bool) (l : List Char),
    (replaceRunsGo b l).length ≤ l.length := by
  intro b l
  induction l generalizing b with
  | nil => exact Nat.le_refl 0
  | cons x xs ih =>
    unfold replaceRunsGo
    by_cases hx : isValidIdCharL x = true
    · rw [if_pos hx]
      simpa using ih false
    · rw [if_neg hx]
      cases b with
      | true => simpa using Nat.le_succ_of_le (ih true)
      | false => simpa using ih true

theorem wsFreeEnds_of_all {l : List Char} (h : ∀ c ∈ l, isWSChar c = false) : wsFreeEnds l := by
  constructor
  · intro c hc
    exact h c (List.mem_of_mem_head? (by rw [hc]; rfl))
  · intro c hc
    exact h c (List.mem_of_mem_getLast? (by rw [hc]; rfl))

theorem lowerL_eq_self_of {l : List Char} (h : ∀ c ∈ l, lowerChar c = c) : lowerL l = l := by
  unfold lowerL
  have h2 : l.map lowerChar = l.map id := List.map_congr_left (by simpa using h)
  rw [h2, List.map_id]

theorem head?_stripTrailingDashes {l : List Char} (h : stripTrailingDashes l ≠ []) :
    (stripTrailingDashes l).head? = l.head? := by
  obtain ⟨t, ht⟩ := List.dropWhile_suffix (l := l.reverse) (fun c => c == '-')
  unfold stripTrailingDashes at *
  have hl : l = (l.reverse.dropWhile (fun c => c == '-')).reverse ++ t.reverse := by
    conv_lhs => rw [← List.reverse_reverse l, ← ht]
    rw [List.reverse_append]
  conv_rhs => rw [hl]
  rw [List.head?_append]
  cases hb : (l.reverse.dropWhile (fun c => c == '-')).reverse.head? with
  | none =>
    exact absurd (List.head?_eq_none_iff.mp hb) h
  | some b => rfl

theorem normSlug_chars {v : List Char} : ∀ c ∈ normSlug v, isValidIdCharL c = true := by
  intro c hc
  unfold normSlug stripTrailingDashes stripLeadingDashes replaceInvalidRuns at hc
  have h1 := (List.take_sublist 64 _).subset hc
  rw [List.mem_reverse] at h1
  have h2 := (List.dropWhile_sublist (fun c => c == '-')).subset h1
  rw [List.mem_reverse] at h2
  have h3 := (List.dropWhile_sublist (fun c => c == '-')).subset h2
  exact replaceRunsGo_chars false _ h3

theorem isIdTailCI_not_ws {c : Char} (h : isIdTailCI c = true) : isWSChar c = false := by
  unfold isIdTailCI isAlnumCI at h
  unfold isWSChar
  simp only [Bool.or_eq_true, Bool.and_eq_true, decide_eq_true_eq] at h
  simp only [Bool.or_eq_false_iff, decide_eq_false_iff_not]
  omega

theorem validIdTest_all_tail {l : List Char} (h : validIdTest l = true) :
    ∀ c ∈ l, isIdTailCI c = true := by
  cases l with
  | nil => cases h
  | cons x xs =>
    simp only [validIdTest, Bool.and_eq_true, List.all_eq_true, decide_eq_true_eq] at h
    intro c hc
    cases hc with
    | head =>
      unfold isIdTailCI
      rw [h.1.1]
      rfl
    | tail _ hx => exact h.1.2 c hx

theorem normalizeAgentId_chars {v : List Char} :
    ∀ c ∈ normalizeAgentId v, lowerChar c = c ∧ isWSChar c = false := by
  have hmain : ∀ c ∈ DEFAULT_AGENT_ID, lowerChar c = c ∧ isWSChar c = false := by
    have hd : DEFAULT_AGENT_ID = ['m', 'a', 'i', 'n'] := rfl
    rw [hd]
    intro c hc
    fin_cases hc <;> exact ⟨by decide, by decide⟩
  intro c hc
  by_cases h1 : trimL v = []
  · unfold normalizeAgentId at hc
    rw [if_pos h1] at hc
    exact hmain c hc
  · by_cases h2 : validIdTest (trimL v) = true
    · unfold normalizeAgentId at hc
      rw [if_neg h1, if_pos h2] at hc
      unfold lowerL at hc
      obtain ⟨d, hd, rfl⟩ := List.mem_map.mp hc
      refine ⟨lowerChar_idem d, ?_⟩
      rw [isWSChar_lowerChar]
      exact isIdTailCI_not_ws (validIdTest_all_tail h2 d hd)
    · by_cases h3 : normSlug v = []
      · unfold normalizeAgentId at hc
        rw [if_neg h1, if_neg h2, if_pos h3] at hc
        exact hmain c hc
      · unfold normalizeAgentId at hc
        rw [if_neg h1, if_neg h2, if_neg h3] at hc
        have hv := normSlug_chars c hc
        exact ⟨isValidIdCharL_lowerChar_fixed hv, isValidIdCharL_not_ws hv⟩

theorem normalizeAgentId_lowerL (v : List Char) :
    lowerL (normalizeAgentId v) = normalizeAgentId v :=
  lowerL_eq_self_of (fun c hc => (normalizeAgentId_chars c hc).1)

theorem normalizeAgentId_trimL (v : List Char) :
    trimL (normalizeAgentId v) = normalizeAgentId v :=
  trimL_eq_self (wsFreeEnds_of_all (fun c hc => (normalizeAgentId_chars c hc).2))

theorem normalizeAgentId_ne_nil (v : List Char) : normalizeAgentId v ≠ [] := by
  unfold normalizeAgentId
  by_cases h1 : trimL v = []
  · rw [if_pos h1]; decide
  · rw [if_neg h1]
    by_cases h2 : validIdTest (trimL v) = true
    · rw [if_pos h2]
      unfold lowerL
      simpa [List.map_eq_nil_iff] using h1
    · rw [if_neg h2]
      by_cases h3 : normSlug v = []
      · rw [if_pos h3]; decide
      · rw [if_neg h3]; exact h3

theorem stripTrailingDashes_length (l : List Char) :
    (stripTrailingDashes l).length ≤ l.length := by
  unfold stripTrailingDashes
  rw [List.length_reverse]
  calc (l.reverse.dropWhile (fun c => c == '-')).length
      ≤ l.reverse.length := (List.dropWhile_sublist _).length_le
    _ = l.length := List.length_reverse l

theorem stripLeadingDashes_length (l : List Char) :
    (stripLeadingDashes l).length ≤ l.length :=
  (List.dropWhile_sublist _).length_le

/-- The slug chain never lengthens the string, so under a 64-character input
the final `take 64` is the identity. -/
theorem normSlug_eq_of_le {v : List Char} (hlen : (trimL v).length ≤ 64) :
    normSlug v =
      stripTrailingDashes (stripLeadingDashes (replaceInvalidRuns (lowerL (trimL v)))) := by
  unfold normSlug
  apply List.take_of_length_le
  calc (stripTrailingDashes (stripLeadingDashes (replaceInvalidRuns (lowerL (trimL v))))).length
      ≤ (stripLeadingDashes (replaceInvalidRuns (lowerL (trimL v)))).length :=
        stripTrailingDashes_length _
    _ ≤ (replaceInvalidRuns (lowerL (trimL v))).length := stripLeadingDashes_length _
    _ ≤ (lowerL (trimL v)).length := replaceRunsGo_length false _
    _ = (trimL v).length := List.length_map _ _
    _ ≤ 64 := hlen

/-- A string that is already a fixpoint of trimming and lowercasing, and
either passes the conforming-id test or consists of id characters with no
dash at either end and length at most 64, is a fixpoint of
`normalizeAgentId`. -/
theorem normalizeAgentId_of_fixed {r : List Char} (hne : r ≠ []) (htrim : trimL r = r)
    (hlow : lowerL r = r)
    (hgood : validIdTest r = true ∨
      ((∀ c ∈ r, isValidIdCharL c = true) ∧
       (∀ c, r.head? = some c → (c == '-') = false) ∧
       (∀ c, r.getLast? = some c → (c == '-') = false) ∧ r.length ≤ 64)) :
    normalizeAgentId r = r := by
  unfold normalizeAgentId
  rw [htrim, if_neg hne]
  by_cases hv : validIdTest r = true
  · rw [if_pos hv]
    exact hlow
  · rcases hgood with hgood | ⟨hchars, hhead, hlast, hlen⟩
    · exact absurd hgood hv
    · have hslug : normSlug r = r := by
        have hlen2 : (trimL r).length ≤ 64 := by rw [htrim]; exact hlen
        rw [normSlug_eq_of_le hlen2, htrim, hlow]
        unfold replaceInvalidRuns
        rw [replaceRunsGo_id hchars false]
        unfold stripLeadingDashes
        rw [dropWhile_eq_self_of_head hhead]
        unfold stripTrailingDashes
        rw [dropWhile_eq_self_of_head (l := r.reverse)
          (fun c hc => hlast c (by rwa [List.head?_reverse] at hc))]
        exact List.reverse_reverse r
      rw [if_neg hv, hslug, if_neg hne]

/-- Claim C7's third conjunct, restricted: `normalizeAgentId` is idempotent on
every input whose trimmed form has at most 64 characters. -/
theorem normalizeAgentId_idem {v : List Char} (hlen : (trimL v).length ≤ 64) :
    normalizeAgentId (normalizeAgentId v) = normalizeAgentId v := by
  by_cases h1 : trimL v = []
  · have hr : normalizeAgentId v = DEFAULT_AGENT_ID := by
      rw [normalizeAgentId, if_pos h1]
    rw [hr]
    decide
  · by_cases h2 : validIdTest (trimL v) = true
    · have hr : normalizeAgentId v = lowerL (trimL v) := by
        rw [normalizeAgentId, if_neg h1, if_pos h2]
      rw [hr]
      apply normalizeAgentId_of_fixed
      · unfold lowerL
        simpa [List.map_eq_nil_iff] using h1
      · exact trimL_eq_self (wsFreeEnds_lowerL (wsFreeEnds_trimL v))
      · exact lowerL_idem _
      · left
        rw [validIdTest_lowerL]
        exact h2
    · by_cases h3 : normSlug v = []
      · have hr : normalizeAgentId v = DEFAULT_AGENT_ID := by
          rw [normalizeAgentId, if_neg h1, if_neg h2, if_pos h3]
        rw [hr]
        decide
      · have hr : normalizeAgentId v = normSlug v := by
          rw [normalizeAgentId, if_neg h1, if_neg h2, if_neg h3]
        have hpre := normSlug_eq_of_le hlen
        rw [hr]
        apply normalizeAgentId_of_fixed h3
        · exact trimL_eq_self (wsFreeEnds_of_all
            (fun c hc => isValidIdCharL_not_ws (normSlug_chars c hc)))
        · exact lowerL_eq_self_of
            (fun c hc => isValidIdCharL_lowerChar_fixed (normSlug_chars c hc))
        · right
          refine ⟨normSlug_chars, ?_, ?_, ?_⟩
          · intro c hc
            rw [hpre] at hc h3
            rw [head?_stripTrailingDashes h3] at hc
            unfold stripLeadingDashes at hc
            exact head?_dropWhile_false (p := fun d => d == '-') hc
          · intro c hc
            rw [hpre] at hc
            unfold stripTrailingDashes at hc
            rw [List.getLast?_reverse] at hc
            exact head?_dropWhile_false (p := fun d => d == '-') hc
          · unfold normSlug
            calc ((stripTrailingDashes _).take 64).length ≤ 64 := by
                  rw [List.length_take]
                  exact min_le_left _ _

theorem normalizeMainKey_ne_nil (v : List Char) : normalizeMainKey v ≠ [] := by
  unfold normalizeMainKey
  by_cases h : trimL v = []
  · rw [if_pos h]; decide
  · rw [if_neg h]
    unfold lowerL
    simpa [List.map_eq_nil_iff] using h

theorem normalizeMainKey_wsFree (v : List Char) : wsFreeEnds (normalizeMainKey v) := by
  unfold normalizeMainKey
  by_cases h : trimL v = []
  · rw [if_pos h]
    apply wsFreeEnds_of_all
    intro c hc
    have hd : DEFAULT_MAIN_KEY = ['m', 'a', 'i', 'n'] := rfl
    rw [hd] at hc
    fin_cases hc <;> decide
  · rw [if_neg h]
    exact wsFreeEnds_lowerL (wsFreeEnds_trimL v)

theorem normalizeMainKey_lowerL (v : List Char) :
    lowerL (normalizeMainKey v) = normalizeMainKey v := by
  unfold normalizeMainKey
  by_cases h : trimL v = []
  · rw [if_pos h]; decide
  · rw [if_neg h]
    exact lowerL_idem _

/-- The shape every canonical session key satisfies: it starts with `agent:`
and is a fixpoint of both trimming and lowercasing. -/
def goodKey (k : List Char) : Prop :=
  startsWithL k "agent:".data = true ∧ trimL k = k ∧ lowerL k = k

theorem agentKey_props {n tail : List Char} (hn : lowerL n = n) (htl : lowerL tail = tail)
    (hne : tail ≠ []) (hlast : ∀ c, tail.getLast? = some c → isWSChar c = false) :
    goodKey ("agent:".data ++ n ++ ":".data ++ tail) := by
  have hassoc : "agent:".data ++ n ++ ":".data ++ tail
      = "agent:".data ++ (n ++ (":".data ++ tail)) := by
    simp [List.append_assoc]
  refine ⟨?_, ?_, ?_⟩
  · rw [hassoc]
    exact startsWithL_append _ _
  · apply trimL_eq_self
    constructor
    · intro c hc
      rw [hassoc, List.head?_append] at hc
      have ha : (("agent:".data).head?).or ((n ++ (":".data ++ tail)).head?) = some 'a' := rfl
      rw [ha] at hc
      cases hc
      decide
    · intro c hc
      rw [List.getLast?_append] at hc
      cases htail : tail.getLast? with
      | none => exact absurd (List.getLast?_eq_none_iff.mp htail) hne
      | some d =>
        rw [htail] at hc
        have : (some d).or (("agent:".data ++ n ++ ":".data).getLast?) = some d := rfl
        rw [this] at hc
        cases hc
        exact hlast c htail
  · unfold lowerL at hn htl ⊢
    rw [List.map_append, List.map_append, List.map_append, hn, htl]
    have h1 : ("agent:".data).map lowerChar = "agent:".data := by decide
    have h2 : (":".data).map lowerChar = ":".data := by decide
    rw [h1, h2]

theorem goodKey_of_lowered_trim {r : List Char}
    (hs : startsWithL (lowerL (trimL r)) "agent:".data = true) :
    goodKey (lowerL (trimL r)) :=
  ⟨hs, trimL_eq_self (wsFreeEnds_lowerL (wsFreeEnds_trimL r)), lowerL_idem _⟩

theorem buildAgentMain_goodKey (aid : List Char) (mk : Option (List Char)) :
    goodKey (buildAgentMainSessionKey aid mk) := by
  unfold buildAgentMainSessionKey
  exact agentKey_props (normalizeAgentId_lowerL aid) (normalizeMainKey_lowerL _)
    (normalizeMainKey_ne_nil _) (fun c hc => (normalizeMainKey_wsFree _).2 c hc)

theorem toAgentStore_goodKey (aid rk : List Char) (mk : Option (List Char)) :
    goodKey (toAgentStoreSessionKey aid (some rk) mk) := by
  unfold toAgentStoreSessionKey
  by_cases h1 : trimL rk = [] ∨ normalizeToken (trimL rk) = DEFAULT_MAIN_KEY
  · rw [if_pos (by simpa using h1)]
    exact buildAgentMain_goodKey aid mk
  · rw [if_neg (by simpa using h1)]
    by_cases h2 : startsWithL (lowerL (trimL rk)) "agent:".data = true
    · rw [if_pos (by simpa using h2)]
      exact goodKey_of_lowered_trim h2
    · rw [if_neg (by simpa using h2)]
      have hne : trimL rk ≠ [] := fun hc => h1 (Or.inl hc)
      apply agentKey_props (normalizeAgentId_lowerL aid) (lowerL_idem _)
      · unfold lowerL
        simpa [List.map_eq_nil_iff] using hne
      · exact fun c hc => (wsFreeEnds_lowerL (wsFreeEnds_trimL rk)).2 c hc

theorem resolve_goodKey (a sid sk : Option (List Char)) :
    goodKey (resolveSessionKey a sid sk) := by
  unfold resolveSessionKey
  by_cases h1 : trimL (sk.getD []) ≠ []
  · rw [if_pos h1]
    exact toAgentStore_goodKey _ _ _
  · rw [if_neg h1]
    by_cases h2 : trimL (sid.getD []) ≠ []
    · rw [if_pos h2]
      exact toAgentStore_goodKey _ _ _
    · rw [if_neg h2]
      exact buildAgentMain_goodKey _ _

theorem goodKey_ne_nil {k : List Char} (h : goodKey k) : k ≠ [] := by
  obtain ⟨t, ht⟩ := isPrefixL_iff_append.mp h.1
  rw [ht]
  simp

theorem goodKey_ne_main {k : List Char} (h : goodKey k) : k ≠ DEFAULT_MAIN_KEY := by
  obtain ⟨t, ht⟩ := isPrefixL_iff_append.mp h.1
  intro hm
  rw [hm] at ht
  have h1 : DEFAULT_MAIN_KEY = ['m', 'a', 'i', 'n'] := rfl
  have h2 : "agent:".data = ['a', 'g', 'e', 'n', 't', ':'] := rfl
  rw [h1, h2] at ht
  cases ht

/-- A canonical `agent:`-prefixed key passes through `toAgentStoreSessionKey`
unchanged. -/
theorem toAgentStore_fix {aid k : List Char} (mk : Option (List Char)) (h : goodKey k) :
    toAgentStoreSessionKey aid (some k) mk = k := by
  obtain ⟨hstart, htrim, hlow⟩ := h
  unfold toAgentStoreSessionKey
  have hcond : ¬(trimL ((some k).getD []) = [] ∨
      normalizeToken (trimL ((some k).getD [])) = DEFAULT_MAIN_KEY) := by
    simp only [Option.getD_some]
    rw [htrim]
    push_neg
    constructor
    · exact goodKey_ne_nil ⟨hstart, htrim, hlow⟩
    · unfold normalizeToken
      rw [htrim, hlow]
      exact goodKey_ne_main ⟨hstart, htrim, hlow⟩
  rw [if_neg hcond]
  simp only [Option.getD_some]
  rw [htrim, hlow, if_pos hstart]

theorem agentPrefix_ne_main (t : List Char) : "agent:".data ++ t ≠ DEFAULT_MAIN_KEY := by
  intro hm
  have h1 : DEFAULT_MAIN_KEY = ['m', 'a', 'i', 'n'] := rfl
  have h2 : "agent:".data = ['a', 'g', 'e', 'n', 't', ':'] := rfl
  rw [h1, h2] at hm
  cases hm

theorem agentPrefix_ne_nil (t : List Char) : "agent:".data ++ t ≠ [] := by
  have h2 : "agent:".data = ['a', 'g', 'e', 'n', 't', ':'] := rfl
  rw [h2]
  simp

/-- Re-resolving a resolved session key with the same agent id returns the
same key (first half of Claim C7). -/
theorem resolveSessionKey_idem (a s : List Char) :
    resolveSessionKey (some a) (some (resolveSessionKey (some a) (some s) none)) none
      = resolveSessionKey (some a) (some s) none := by
  have hk := resolve_goodKey (some a) (some s) none
  have hne : resolveSessionKey (some a) (some s) none ≠ [] := goodKey_ne_nil hk
  generalize hgen : resolveSessionKey (some a) (some s) none = k at hk hne ⊢
  unfold resolveSessionKey
  simp only [Option.getD_none, Option.getD_some]
  rw [if_neg (by decide), hk.2.1, if_pos hne]
  exact toAgentStore_fix none hk

theorem trimL_agentKey {n tail : List Char} (hne : tail ≠ [])
    (hlast : ∀ c, tail.getLast? = some c → isWSChar c = false) :
    trimL ("agent:".data ++ n ++ ":".data ++ tail) = "agent:".data ++ n ++ ":".data ++ tail := by
  have hassoc : "agent:".data ++ n ++ ":".data ++ tail
      = "agent:".data ++ (n ++ (":".data ++ tail)) := by
    simp [List.append_assoc]
  apply trimL_eq_self
  constructor
  · intro c hc
    rw [hassoc, List.head?_append] at hc
    have ha : (("agent:".data).head?).or ((n ++ (":".data ++ tail)).head?) = some 'a' := rfl
    rw [ha] at hc
    cases hc
    decide
  · intro c hc
    rw [List.getLast?_append] at hc
    cases htail : tail.getLast? with
    | none => exact absurd (List.getLast?_eq_none_iff.mp htail) hne
    | some d =>
      rw [htail] at hc
      have hor : (some d).or (("agent:".data ++ n ++ ":".data).getLast?) = some d := rfl
      rw [hor] at hc
      cases hc
      exact hlast c htail

theorem lowerL_agentKey (n tail : List Char) :
    lowerL ("agent:".data ++ n ++ ":".data ++ tail)
      = "agent:".data ++ lowerL n ++ ":".data ++ lowerL tail := by
  unfold lowerL
  rw [List.map_append, List.map_append, List.map_append]
  have h1 : ("agent:".data).map lowerChar = "agent:".data := by decide
  have h2 : (":".data).map lowerChar = ":".data := by decide
  rw [h1, h2]

/-- A bare session id and the corresponding full `agent:` key resolve to the
same canonical key (second half of Claim C7, under the amendment's
hypotheses). -/
theorem resolveSessionKey_bare_full (a s : List Char) (hlen : (trimL a).length ≤ 64)
    (hst : trimL s = s) (hsne : s ≠ [])
    (hpre : startsWithL (lowerL s) "agent:".data = false) :
    resolveSessionKey (some a)
        (some ("agent:".data ++ normalizeAgentId a ++ ":".data ++ s)) none
      = resolveSessionKey (some a) (some s) none := by
  have hidem : normalizeAgentId (normalizeAgentId a) = normalizeAgentId a :=
    normalizeAgentId_idem hlen
  have hws : wsFreeEnds s := hst ▸ wsFreeEnds_trimL s
  have htf : trimL ("agent:".data ++ normalizeAgentId a ++ ":".data ++ s)
      = "agent:".data ++ normalizeAgentId a ++ ":".data ++ s :=
    trimL_agentKey hsne (fun c hc => hws.2 c hc)
  have hassoc : ∀ m tail : List Char, "agent:".data ++ m ++ ":".data ++ tail
      = "agent:".data ++ (m ++ (":".data ++ tail)) := by
    intro m tail
    simp [List.append_assoc]
  have hlowf : lowerL ("agent:".data ++ normalizeAgentId a ++ ":".data ++ s)
      = "agent:".data ++ normalizeAgentId a ++ ":".data ++ lowerL s := by
    rw [lowerL_agentKey, normalizeAgentId_lowerL]
  have hfull : resolveSessionKey (some a)
      (some ("agent:".data ++ normalizeAgentId a ++ ":".data ++ s)) none
      = "agent:".data ++ normalizeAgentId a ++ ":".data ++ lowerL s := by
    unfold resolveSessionKey
    simp only [Option.getD_none, Option.getD_some]
    rw [if_neg (by decide), htf, if_pos (by rw [hassoc]; exact agentPrefix_ne_nil _)]
    unfold toAgentStoreSessionKey
    simp only [Option.getD_some]
    rw [htf]
    rw [if_neg ?hcond]
    case hcond =>
      push_neg
      constructor
      · rw [hassoc]; exact agentPrefix_ne_nil _
      · unfold normalizeToken
        rw [htf, hlowf, hassoc]
        exact agentPrefix_ne_main _
    rw [hlowf, if_pos (by rw [hassoc]; exact startsWithL_append _ _)]
  rw [hfull]
  unfold resolveSessionKey
  simp only [Option.getD_none, Option.getD_some]
  rw [if_neg (by decide), hst, if_pos hsne]
  unfold toAgentStoreSessionKey
  simp only [Option.getD_some]
  rw [hst]
  by_cases hmain : normalizeToken s = DEFAULT_MAIN_KEY
  · rw [if_pos (Or.inr hmain)]
    unfold buildAgentMainSessionKey
    rw [hidem]
    have hmk : normalizeMainKey ((none : Option (List Char)).getD []) = DEFAULT_MAIN_KEY := by
      decide
    rw [hmk]
    unfold normalizeToken at hmain
    rw [hst] at hmain
    rw [← hmain]
  · rw [if_neg (by push_neg; exact ⟨hsne, hmain⟩)]
    have hpre2 : startsWithL (lowerL s) ['a', 'g', 'e', 'n', 't', ':'] = false := hpre
    rw [if_neg (by rw [hpre2]; simp)]
    rw [hidem]

/-- Claim C7 (amended): re-application of `resolveSessionKey` with the same
agent id is the identity; a bare session id and the full key
`agent:<normalized a>:<s>` resolve to the identical canonical key provided the
bare id is trim-invariant, nonempty, does not itself start with `agent:`
(case-insensitively), and the agent id's trimmed form has at most 64
characters; and `normalizeAgentId` is idempotent on every input whose trimmed
form has at most 64 characters.  (Unrestricted, the last two parts are false
— see the counterexample.) -/
theorem claim_C7_sessionKey_canonical (a s x : List Char) :
    (resolveSessionKey (some a) (some (resolveSessionKey (some a) (some s) none)) none
      = resolveSessionKey (some a) (some s) none) ∧
    (trimL s = s → s ≠ [] → startsWithL (lowerL s) "agent:".data = false →
      (trimL a).length ≤ 64 →
      resolveSessionKey (some a)
          (some ("agent:".data ++ normalizeAgentId a ++ ":".data ++ s)) none
        = resolveSessionKey (some a) (some s) none) ∧
    ((trimL x).length ≤ 64 → normalizeAgentId (normalizeAgentId x) = normalizeAgentId x) :=
  ⟨resolveSessionKey_idem a s,
   fun hst hsne hpre hlen => resolveSessionKey_bare_full a s hlen hst hsne hpre,
   fun hlen => normalizeAgentId_idem hlen⟩

/-- Witness for Claim C7 at concrete inputs. -/
theorem claim_C7_witness :
    (resolveSessionKey (some "My Agent!".data)
        (some (resolveSessionKey (some "My Agent!".data) (some "Sess-01".data) none)) none
      = resolveSessionKey (some "My Agent!".data) (some "Sess-01".data) none) ∧
    (resolveSessionKey (some "My Agent!".data)
        (some ("agent:".data ++ normalizeAgentId "My Agent!".data ++ ":".data
          ++ "Sess-01".data)) none
      = resolveSessionKey (some "My Agent!".data) (some "Sess-01".data) none) ∧
    normalizeAgentId (normalizeAgentId "  Team X  ".data) = normalizeAgentId "  Team X  ".data :=
  ⟨(claim_C7_sessionKey_canonical "My Agent!".data "Sess-01".data "x".data).1,
   (claim_C7_sessionKey_canonical "My Agent!".data "Sess-01".data "x".data).2.1
     (by decide) (by decide) (by decide) (by decide),
   (claim_C7_sessionKey_canonical "a".data "s".data "  Team X  ".data).2.2 (by decide)⟩

/-- A 65-character id whose slug is truncated to a trailing dash. -/
def c7BadId : List Char := '_' :: (List.replicate 62 'a' ++ ['!', 'b'])

/-- Counterexample to Claim C7 as stated: `normalizeAgentId` is not idempotent
(the 64-character truncation can re-expose a trailing dash that a second
application strips), and the empty bare session id and its full key resolve
to different canonical keys. -/
theorem claim_C7_counterexample :
    normalizeAgentId (normalizeAgentId c7BadId) ≠ normalizeAgentId c7BadId ∧
    resolveSessionKey (some "a".data)
        (some ("agent:".data ++ normalizeAgentId "a".data ++ ":".data ++ "".data)) none
      ≠ resolveSessionKey (some "a".data) (some "".data) none := by
  constructor
  · decide
  · decide

/- ===================== Agent loop tool phase (agent-loop.ts) ===================== -/

/-- A content block (session.ts); only the variants the tool phase touches. -/
inductive ContentBlock where
  | text (s : String)
  | toolUse (id name input : String)
  | toolResult (toolUseId name content : String)
deriving DecidableEq

/-- Message content is either plain text or a block list. -/
inductive MsgContent where
  | text (s : String)
  | blocks (bs : List ContentBlock)
deriving DecidableEq

/-- A role-tagged message (timestamps are irrelevant to the claims). -/
structure Message where
  role : String
  content : MsgContent
deriving DecidableEq

/-- A tool: name and an execute function returning a result string or
throwing (modelled as `Except`, the error carrying the exception message).
The argument map is opaque to the loop and modelled as a string. -/
structure Tool where
  name : String
  execute : String → Except String String

/-- A `toolcall_end` event's tool call: id, name, argument payload. -/
structure ToolCall where
  id : String
  name : String
  input : String
deriving DecidableEq

/-- Lines 295–307 of agent-loop.ts: resolve the tool by name with `find`,
run it, coerce a thrown exception into `执行错误: <message>` and a missing
tool into `未知工具: <name>`. -/
def execToolCall (toolsForRun : List Tool) (call : ToolCall) : String :=
  match toolsForRun.find? (fun t => t.name == call.name) with
  | some tool =>
    match tool.execute call.input with
    | .ok r => r
    | .error msg => "执行错误: " ++ msg
  | none => "未知工具: " ++ call.name

/-- The sequential tool loop of a turn (agent-loop.ts lines 292–342).
`arrivals` lists, per executed call, the steering texts pushed into the
session's queue while that call ran; after each call the queue is checked
and a non-empty queue sets `steered` and stops the remaining calls.
Returns (tool_result blocks, steered, queue at exit, executed-call count). -/
def runToolCalls (toolsForRun : List Tool) :
    List ToolCall → List (List String) → List String →
    List ContentBlock × Bool × List String × Nat
  | [], _, queue => ([], false, queue, 0)
  | call :: rest, arrivals, queue =>
    let block := ContentBlock.toolResult call.id call.name (execToolCall toolsForRun call)
    let queue2 := queue ++ arrivals.headD []
    if queue2.isEmpty then
      let r := runToolCalls toolsForRun rest arrivals.tail queue2
      (block :: r.1, r.2.1, r.2.2.1, r.2.2.2 + 1)
    else
      ([block], true, queue2, 1)

/-- Lines 344–368 of agent-loop.ts: append the executed calls' tool_results
as one user message; if steered, drain the queue into one newline-joined
user message and clear it.  Returns (appended messages, final queue,
executed-call count). -/
def runTurnToolPhase (toolsForRun : List Tool) (calls : List ToolCall)
    (arrivals : List (List String)) (queue : List String) :
    List Message × List String × Nat :=
  if (runToolCalls toolsForRun calls arrivals queue).2.1 then
    if ((runToolCalls toolsForRun calls arrivals queue).2.2.1).isEmpty then
      ([⟨"user", MsgContent.blocks (runToolCalls toolsForRun calls arrivals queue).1⟩],
       (runToolCalls toolsForRun calls arrivals queue).2.2.1,
       (runToolCalls toolsForRun calls arrivals queue).2.2.2)
    else
      ([⟨"user", MsgContent.blocks (runToolCalls toolsForRun calls arrivals queue).1⟩,
        ⟨"user", MsgContent.text (String.intercalate "\n"
          (runToolCalls toolsForRun calls arrivals queue).2.2.1)⟩],
       [], (runToolCalls toolsForRun calls arrivals queue).2.2.2)
  else
    ([⟨"user", MsgContent.blocks (runToolCalls toolsForRun calls arrivals queue).1⟩],
     (runToolCalls toolsForRun calls arrivals queue).2.2.1,
     (runToolCalls toolsForRun calls arrivals queue).2.2.2)

/-- The queue contents visible at the check following the `k`-th executed
call: the initial queue plus everything that arrived during calls 1..k. -/
def queueUpTo (queue : List String) (arrivals : List (List String)) (k : Nat) : List String :=
  queue ++ (arrivals.take k).flatten

theorem queueUpTo_step (queue : List String) (arrivals : List (List String)) (k : Nat) :
    queueUpTo (queue ++ arrivals.headD []) arrivals.tail k = queueUpTo queue arrivals (k + 1) := by
  unfold queueUpTo
  cases arrivals with
  | nil => simp
  | cons a as => simp [List.take_succ_cons]

/-- The behaviour of the tool loop, by induction on the call list. -/
theorem runToolCalls_spec (toolsForRun : List Tool) :
    ∀ (calls : List ToolCall) (arrivals : List (List String)) (queue : List String),
    (runToolCalls toolsForRun calls arrivals queue).1 =
      ((calls.take (runToolCalls toolsForRun calls arrivals queue).2.2.2).map
        (fun c => ContentBlock.toolResult c.id c.name (execToolCall toolsForRun c))) ∧
    (runToolCalls toolsForRun calls arrivals queue).2.2.2 ≤ calls.length ∧
    ((runToolCalls toolsForRun calls arrivals queue).2.1 = false →
      (runToolCalls toolsForRun calls arrivals queue).2.2.2 = calls.length) ∧
    ((runToolCalls toolsForRun calls arrivals queue).2.1 = true →
      (runToolCalls toolsForRun calls arrivals queue).2.2.1 ≠ [] ∧
      0 < (runToolCalls toolsForRun calls arrivals queue).2.2.2) ∧
    (runToolCalls toolsForRun calls arrivals queue).2.2.1 =
      queueUpTo queue arrivals (runToolCalls toolsForRun calls arrivals queue).2.2.2 ∧
    (∀ j, 0 < j → j < (runToolCalls toolsForRun calls arrivals queue).2.2.2 →
      queueUpTo queue arrivals j = []) := by
  intro calls
  induction calls with
  | nil =>
    intro arrivals queue
    refine ⟨rfl, Nat.le_refl _, fun _ => rfl, ?_, ?_, ?_⟩
    · intro h
      simp [runToolCalls] at h
    · simp [runToolCalls, queueUpTo]
    · intro j hj hlt
      simp [runToolCalls] at hlt
  | cons call rest ih =>
    intro arrivals queue
    by_cases hq : (queue ++ arrivals.headD []).isEmpty = true
    · have hqnil : queue ++ arrivals.headD [] = [] := by simpa [List.isEmpty_iff] using hq
      obtain ⟨ih1, ih2, ih3, ih4, ih5, ih6⟩ := ih arrivals.tail (queue ++ arrivals.headD [])
      have hr : runToolCalls toolsForRun (call :: rest) arrivals queue =
          (ContentBlock.toolResult call.id call.name (execToolCall toolsForRun call) ::
            (runToolCalls toolsForRun rest arrivals.tail (queue ++ arrivals.headD [])).1,
           (runToolCalls toolsForRun rest arrivals.tail (queue ++ arrivals.headD [])).2.1,
           (runToolCalls toolsForRun rest arrivals.tail (queue ++ arrivals.headD [])).2.2.1,
           (runToolCalls toolsForRun rest arrivals.tail (queue ++ arrivals.headD [])).2.2.2 + 1) := by
        rw [runToolCalls, if_pos hq]
      rw [hr]
      refine ⟨?_, ?_, ?_, ?_, ?_, ?_⟩
      · show _ :: _ = _
        simp only [List.take_succ_cons, List.map_cons]
        rw [ih1]
      · show _ + 1 ≤ _ + 1
        exact Nat.succ_le_succ ih2
      · intro h
        show _ + 1 = _ + 1
        exact congrArg (· + 1) (ih3 h)
      · intro h
        exact ⟨(ih4 h).1, Nat.succ_pos _⟩
      · show _ = queueUpTo queue arrivals (_ + 1)
        rw [ih5, queueUpTo_step]
      · intro j hj hlt
        have hlt2 : j <
            (runToolCalls toolsForRun rest arrivals.tail (queue ++ arrivals.headD [])).2.2.2 + 1 :=
          hlt
        rcases j with _ | j
        · omega
        · rcases j with _ | j'
          · unfold queueUpTo
            cases arrivals with
            | nil => simpa using hqnil
            | cons a as => simpa [List.take_succ_cons] using hqnil
          · have hlt3 : j' + 1 <
                (runToolCalls toolsForRun rest arrivals.tail (queue ++ arrivals.headD [])).2.2.2 := by
              omega
            have hx := ih6 (j' + 1) (Nat.succ_pos _) hlt3
            rwa [queueUpTo_step] at hx
    · have hr : runToolCalls toolsForRun (call :: rest) arrivals queue =
          ([ContentBlock.toolResult call.id call.name (execToolCall toolsForRun call)],
           true, queue ++ arrivals.headD [], 1) := by
        rw [runToolCalls, if_neg hq]
      rw [hr]
      refine ⟨?_, ?_, ?_, ?_, ?_, ?_⟩
      · show _ = (List.take 1 (call :: rest)).map _
        simp
      · show 1 ≤ _
        simp
      · intro h
        simp at h
      · intro _
        refine ⟨?_, Nat.one_pos⟩
        simpa [List.isEmpty_iff] using hq
      · show _ = queueUpTo queue arrivals 1
        unfold queueUpTo
        cases arrivals with
        | nil => simp
        | cons a as => simp [List.take_succ_cons]
      · intro j hj hlt
        have hlt2 : j < 1 := hlt
        omega

/-- Claim C3: after each executed tool call the steering queue is checked
(the calls before the steered one all saw an empty queue); a non-empty queue
stops the remaining calls; the executed calls' tool_result blocks form one
user-role message; if steered, the queued texts are appended as exactly one
further user-role message joined by newlines and the queue is left empty. -/
theorem claim_C3_steering (toolsForRun : List Tool) (calls : List ToolCall)
    (arrivals : List (List String)) (queue : List String) :
    (runToolCalls toolsForRun calls arrivals queue).1 =
      ((calls.take (runToolCalls toolsForRun calls arrivals queue).2.2.2).map
        (fun c => ContentBlock.toolResult c.id c.name (execToolCall toolsForRun c))) ∧
    ((runToolCalls toolsForRun calls arrivals queue).2.1 = false →
      (runToolCalls toolsForRun calls arrivals queue).2.2.2 = calls.length ∧
      runTurnToolPhase toolsForRun calls arrivals queue =
        ([⟨"user", MsgContent.blocks (runToolCalls toolsForRun calls arrivals queue).1⟩],
         (runToolCalls toolsForRun calls arrivals queue).2.2.1,
         (runToolCalls toolsForRun calls arrivals queue).2.2.2)) ∧
    ((runToolCalls toolsForRun calls arrivals queue).2.1 = true →
      (runToolCalls toolsForRun calls arrivals queue).2.2.1 =
        queueUpTo queue arrivals (runToolCalls toolsForRun calls arrivals queue).2.2.2 ∧
      (runToolCalls toolsForRun calls arrivals queue).2.2.1 ≠ [] ∧
      (∀ j, 0 < j → j < (runToolCalls toolsForRun calls arrivals queue).2.2.2 →
        queueUpTo queue arrivals j = []) ∧
      runTurnToolPhase toolsForRun calls arrivals queue =
        ([⟨"user", MsgContent.blocks (runToolCalls toolsForRun calls arrivals queue).1⟩,
          ⟨"user", MsgContent.text (String.intercalate "\n"
            (runToolCalls toolsForRun calls arrivals queue).2.2.1)⟩],
         [], (runToolCalls toolsForRun calls arrivals queue).2.2.2)) := by
  obtain ⟨h1, _, h3, h4, h5, h6⟩ := runToolCalls_spec toolsForRun calls arrivals queue
  refine ⟨h1, ?_, ?_⟩
  · intro hst
    refine ⟨h3 hst, ?_⟩
    unfold runTurnToolPhase
    rw [hst]
    simp only [Bool.false_eq_true, if_false]
  · intro hst
    obtain ⟨hne, _⟩ := h4 hst
    refine ⟨h5, hne, h6, ?_⟩
    unfold runTurnToolPhase
    rw [hst]
    simp only [if_true]
    rw [if_neg (by simpa [List.isEmpty_iff] using hne)]

/-- A tool set, call list and steering-arrival pattern for the witness: two
texts are steered in while the second of three calls runs. -/
def c3Tools : List Tool := [⟨"echo", fun input => Except.ok ("echo:" ++ input)⟩]

def c3Calls : List ToolCall := [⟨"1", "echo", "a"⟩, ⟨"2", "echo", "b"⟩, ⟨"3", "echo", "c"⟩]

def c3Arrivals : List (List String) := [[], ["stop", "now"], []]

/-- Witness for Claim C3: with steering texts arriving during the second of
three calls, the third call is not executed and the turn ends with the
tool_result message followed by one newline-joined steering message. -/
theorem claim_C3_witness :
    (runToolCalls c3Tools c3Calls c3Arrivals []).2.1 = true ∧
    (runToolCalls c3Tools c3Calls c3Arrivals []).2.2.2 = 2 ∧
    runTurnToolPhase c3Tools c3Calls c3Arrivals [] =
      ([⟨"user", MsgContent.blocks (runToolCalls c3Tools c3Calls c3Arrivals []).1⟩,
        ⟨"user", MsgContent.text (String.intercalate "\n"
          (runToolCalls c3Tools c3Calls c3Arrivals []).2.2.1)⟩], [],
       (runToolCalls c3Tools c3Calls c3Arrivals []).2.2.2) :=
  ⟨rfl, rfl, ((claim_C3_steering c3Tools c3Calls c3Arrivals []).2.2 rfl).2.2.2⟩

/-- Claim C4: a thrown tool exception becomes a `执行错误: `-prefixed
tool_result body, an unknown tool name becomes `未知工具: <name>`, and in
either case the loop appends the block, counts the call, and continues with
the remaining calls rather than aborting. -/
theorem claim_C4_tool_errors (toolsForRun : List Tool) (call : ToolCall)
    (rest : List ToolCall) (arrivals : List (List String)) :
    (∀ tool err, toolsForRun.find? (fun t => t.name == call.name) = some tool →
      tool.execute call.input = Except.error err →
      execToolCall toolsForRun call = "执行错误: " ++ err) ∧
    (toolsForRun.find? (fun t => t.name == call.name) = none →
      execToolCall toolsForRun call = "未知工具: " ++ call.name) ∧
    ((runToolCalls toolsForRun (call :: rest) arrivals []).1.head? =
      some (ContentBlock.toolResult call.id call.name (execToolCall toolsForRun call))) ∧
    0 < (runToolCalls toolsForRun (call :: rest) arrivals []).2.2.2 ∧
    (arrivals.headD [] = [] →
      (runToolCalls toolsForRun (call :: rest) arrivals []).2.2.2 =
        (runToolCalls toolsForRun rest arrivals.tail []).2.2.2 + 1) := by
  refine ⟨?_, ?_, ?_, ?_, ?_⟩
  · intro tool err hf he
    simp [execToolCall, hf, he]
  · intro hf
    simp [execToolCall, hf]
  · by_cases hq : (([] : List String) ++ arrivals.headD []).isEmpty = true
    · have hr : runToolCalls toolsForRun (call :: rest) arrivals [] =
          (ContentBlock.toolResult call.id call.name (execToolCall toolsForRun call) ::
            (runToolCalls toolsForRun rest arrivals.tail ([] ++ arrivals.headD [])).1,
           (runToolCalls toolsForRun rest arrivals.tail ([] ++ arrivals.headD [])).2.1,
           (runToolCalls toolsForRun rest arrivals.tail ([] ++ arrivals.headD [])).2.2.1,
           (runToolCalls toolsForRun rest arrivals.tail ([] ++ arrivals.headD [])).2.2.2 + 1) := by
        rw [runToolCalls, if_pos hq]
      rw [hr]
      rfl
    · have hr : runToolCalls toolsForRun (call :: rest) arrivals [] =
          ([ContentBlock.toolResult call.id call.name (execToolCall toolsForRun call)],
           true, [] ++ arrivals.headD [], 1) := by
        rw [runToolCalls, if_neg hq]
      rw [hr]
      rfl
  · by_cases hq : (([] : List String) ++ arrivals.headD []).isEmpty = true
    · have hr : runToolCalls toolsForRun (call :: rest) arrivals [] =
          (ContentBlock.toolResult call.id call.name (execToolCall toolsForRun call) ::
            (runToolCalls toolsForRun rest arrivals.tail ([] ++ arrivals.headD [])).1,
           (runToolCalls toolsForRun rest arrivals.tail ([] ++ arrivals.headD [])).2.1,
           (runToolCalls toolsForRun rest arrivals.tail ([] ++ arrivals.headD [])).2.2.1,
           (runToolCalls toolsForRun rest arrivals.tail ([] ++ arrivals.headD [])).2.2.2 + 1) := by
        rw [runToolCalls, if_pos hq]
      rw [hr]
      exact Nat.succ_pos _
    · have hr : runToolCalls toolsForRun (call :: rest) arrivals [] =
          ([ContentBlock.toolResult call.id call.name (execToolCall toolsForRun call)],
           true, [] ++ arrivals.headD [], 1) := by
        rw [runToolCalls, if_neg hq]
      rw [hr]
      exact Nat.one_pos
  · intro ha
    have hq : (([] : List String) ++ arrivals.headD []) = [] := by rw [ha]; rfl
    have hr : runToolCalls toolsForRun (call :: rest) arrivals [] =
        (ContentBlock.toolResult call.id call.name (execToolCall toolsForRun call) ::
          (runToolCalls toolsForRun rest arrivals.tail ([] ++ arrivals.headD [])).1,
         (runToolCalls toolsForRun rest arrivals.tail ([] ++ arrivals.headD [])).2.1,
         (runToolCalls toolsForRun rest arrivals.tail ([] ++ arrivals.headD [])).2.2.1,
         (runToolCalls toolsForRun rest arrivals.tail ([] ++ arrivals.headD [])).2.2.2 + 1) := by
      rw [runToolCalls, if_pos (by rw [hq]; rfl)]
    rw [hr, hq]

/-- A tool whose execute always throws, for the witness. -/
def c4Boom : Tool := ⟨"boom", fun _ => Except.error "kaboom"⟩

def c4Tools : List Tool := [c4Boom]

/-- Witness for Claim C4 at concrete calls: a throwing tool, an unknown
tool, and the loop continuing past the failure. -/
theorem claim_C4_witness :
    execToolCall c4Tools ⟨"1", "boom", "x"⟩ = "执行错误: " ++ "kaboom" ∧
    execToolCall c4Tools ⟨"2", "nope", "x"⟩ = "未知工具: " ++ "nope" ∧
    (runToolCalls c4Tools [⟨"1", "boom", "x"⟩, ⟨"2", "nope", "x"⟩] [] []).2.2.2 =
      (runToolCalls c4Tools [⟨"2", "nope", "x"⟩] [] []).2.2.2 + 1 :=
  ⟨(claim_C4_tool_errors c4Tools ⟨"1", "boom", "x"⟩ [] []).1 c4Boom "kaboom" rfl rfl,
   (claim_C4_tool_errors c4Tools ⟨"2", "nope", "x"⟩ [] []).2.1 rfl,
   (claim_C4_tool_errors c4Tools ⟨"1", "boom", "x"⟩ [⟨"2", "nope", "x"⟩] []).2.2.2.2 rfl⟩

/- ===================== Retry with backoff (retryAsync) ===================== -/

/-- `RetryOptions` with the source defaults: attempts 3, minDelay 300 ms,
maxDelay 30000 ms, jitter 0.1.  An absent `shouldRetry` always retries.
Errors are modelled by their description string; delays by rationals. -/
structure RetryOptions where
  attempts : Nat := 3
  minDelayMs : ℚ := 300
  maxDelayMs : ℚ := 30000
  jitter : ℚ := 1/10
  shouldRetry : String → Nat → Bool := fun _ _ => true

/-- The delay slept before retrying failed attempt `k` (1-based): exponential
base `minDelayMs · 2^(k−1)`, multiplied by `1 + offset` when jitter is
positive (`offset` is the drawn jitter), then clamped into
`[minDelayMs, maxDelayMs]` via `Math.max(Math.min(·))`. -/
def retryDelay (o : RetryOptions) (offset : ℚ) (k : Nat) : ℚ :=
  max (min (if o.jitter > 0 then (o.minDelayMs * 2 ^ (k - 1)) * (1 + offset)
            else o.minDelayMs * 2 ^ (k - 1)) o.maxDelayMs) o.minDelayMs

/-- The attempt loop of `retryAsync` from attempt `k`, with
`fuel = attempts − k` remaining retries.  `fn j` is the outcome of the j-th
invocation of the wrapped operation (`Except.error` models a throw);
`offsets j` is the jitter offset drawn before the retry of attempt `j`.
Returns (outcome, slept delays, number of invocations). -/
def retryGo (fn : Nat → Except String α) (o : RetryOptions) (offsets : Nat → ℚ) :
    Nat → Nat → Except String α × List ℚ × Nat
  | k, fuel =>
    match fn k with
    | .ok v => (.ok v, [], 1)
    | .error e =>
      match fuel with
      | 0 => (.error e, [], 1)
      | fuel' + 1 =>
        if o.shouldRetry e k then
          ((retryGo fn o offsets (k + 1) fuel').1,
           retryDelay o (offsets k) k :: (retryGo fn o offsets (k + 1) fuel').2.1,
           (retryGo fn o offsets (k + 1) fuel').2.2 + 1)
        else (.error e, [], 1)

/-- `retryAsync(fn, options)`: run up to `attempts` attempts; with
`attempts = 0` the loop body never runs and the undefined `lastError`
(modelled as `none`) is thrown. -/
def retryAsync (o : RetryOptions) (fn : Nat → Except String α) (offsets : Nat → ℚ) :
    Except (Option String) α × List ℚ × Nat :=
  if o.attempts = 0 then (.error none, [], 0)
  else
    ((retryGo fn o offsets 1 (o.attempts - 1)).1.mapError some,
     (retryGo fn o offsets 1 (o.attempts - 1)).2.1,
     (retryGo fn o offsets 1 (o.attempts - 1)).2.2)

theorem retryDelay_bounds (o : RetryOptions) (off : ℚ) (k : Nat)
    (h : o.minDelayMs ≤ o.maxDelayMs) :
    o.minDelayMs ≤ retryDelay o off k ∧ retryDelay o off k ≤ o.maxDelayMs := by
  unfold retryDelay
  refine ⟨le_max_right _ _, max_le (min_le_right _ _) h⟩

theorem retryGo_spec (fn : Nat → Except String α) (o : RetryOptions) (offsets : Nat → ℚ) :
    ∀ (fuel k : Nat),
    1 ≤ (retryGo fn o offsets k fuel).2.2 ∧
    (retryGo fn o offsets k fuel).2.2 ≤ fuel + 1 ∧
    (retryGo fn o offsets k fuel).2.1.length = (retryGo fn o offsets k fuel).2.2 - 1 ∧
    (∀ i (h : i < (retryGo fn o offsets k fuel).2.1.length),
      (retryGo fn o offsets k fuel).2.1.get ⟨i, h⟩ = retryDelay o (offsets (k + i)) (k + i)) ∧
    (∀ e, (retryGo fn o offsets k fuel).1 = .error e →
      fn (k + (retryGo fn o offsets k fuel).2.2 - 1) = .error e ∧
      (fuel = (retryGo fn o offsets k fuel).2.2 - 1 ∨
        o.shouldRetry e (k + (retryGo fn o offsets k fuel).2.2 - 1) = false)) := by
  intro fuel
  induction fuel with
  | zero =>
    intro k
    cases hfn : fn k with
    | ok v =>
      have hr : retryGo fn o offsets k 0 = (.ok v, [], 1) := by
        rw [retryGo, hfn]
      rw [hr]
      refine ⟨Nat.le_refl _, by show (1 : Nat) ≤ _; omega, rfl, ?_, ?_⟩
      · intro i h
        simp at h
      · intro e he
        cases he
    | error e =>
      have hr : retryGo fn o offsets k 0 = (.error e, [], 1) := by
        rw [retryGo, hfn]
      rw [hr]
      refine ⟨Nat.le_refl _, by show (1 : Nat) ≤ _; omega, rfl, ?_, ?_⟩
      · intro i h
        simp at h
      · intro e2 he
        cases he
        refine ⟨by simpa using hfn, Or.inl rfl⟩
  | succ fuel' ih =>
    intro k
    cases hfn : fn k with
    | ok v =>
      have hr : retryGo fn o offsets k (fuel' + 1) = (.ok v, [], 1) := by
        rw [retryGo, hfn]
      rw [hr]
      refine ⟨Nat.le_refl _, by show (1 : Nat) ≤ _; omega, rfl, ?_, ?_⟩
      · intro i h
        simp at h
      · intro e he
        cases he
    | error e =>
      by_cases hsr : o.shouldRetry e k = true
      · have hr : retryGo fn o offsets k (fuel' + 1) =
            ((retryGo fn o offsets (k + 1) fuel').1,
             retryDelay o (offsets k) k :: (retryGo fn o offsets (k + 1) fuel').2.1,
             (retryGo fn o offsets (k + 1) fuel').2.2 + 1) := by
          rw [retryGo, hfn]
          show (if o.shouldRetry e k = true then
              ((retryGo fn o offsets (k + 1) fuel').1,
               retryDelay o (offsets k) k :: (retryGo fn o offsets (k + 1) fuel').2.1,
               (retryGo fn o offsets (k + 1) fuel').2.2 + 1)
            else (Except.error e, [], 1)) = _
          rw [if_pos hsr]
        obtain ⟨ih1, ih2, ih3, ih4, ih5⟩ := ih (k + 1)
        rw [hr]
        refine ⟨?_, ?_, ?_, ?_, ?_⟩
        · show 1 ≤ (retryGo fn o offsets (k + 1) fuel').2.2 + 1
          omega
        · show (retryGo fn o offsets (k + 1) fuel').2.2 + 1 ≤ fuel' + 1 + 1
          omega
        · show (retryDelay o (offsets k) k ::
              (retryGo fn o offsets (k + 1) fuel').2.1).length =
            (retryGo fn o offsets (k + 1) fuel').2.2 + 1 - 1
          simp only [List.length_cons]
          omega
        · intro i h
          have h' : i < (retryDelay o (offsets k) k ::
              (retryGo fn o offsets (k + 1) fuel').2.1).length := h
          rw [List.length_cons] at h'
          rcases i with _ | i
          · show retryDelay o (offsets k) k = retryDelay o (offsets (k + 0)) (k + 0)
            rw [Nat.add_zero]
          · have h2 : i < (retryGo fn o offsets (k + 1) fuel').2.1.length := by omega
            have harith : k + 1 + i = k + (i + 1) := by omega
            show (retryGo fn o offsets (k + 1) fuel').2.1.get ⟨i, h2⟩ = _
            rw [ih4 i h2, harith]
        · intro e2 he
          obtain ⟨hfn2, hor⟩ := ih5 e2 he
          constructor
          · have harith : k + 1 + (retryGo fn o offsets (k + 1) fuel').2.2 - 1 =
                k + ((retryGo fn o offsets (k + 1) fuel').2.2 + 1) - 1 := by omega
            show fn (k + ((retryGo fn o offsets (k + 1) fuel').2.2 + 1) - 1) = Except.error e2
            rwa [harith] at hfn2
          · rcases hor with hor | hor
            · left
              show fuel' + 1 = (retryGo fn o offsets (k + 1) fuel').2.2 + 1 - 1
              omega
            · right
              have harith : k + 1 + (retryGo fn o offsets (k + 1) fuel').2.2 - 1 =
                  k + ((retryGo fn o offsets (k + 1) fuel').2.2 + 1) - 1 := by omega
              show o.shouldRetry e2
                (k + ((retryGo fn o offsets (k + 1) fuel').2.2 + 1) - 1) = false
              rwa [harith] at hor
      · have hr : retryGo fn o offsets k (fuel' + 1) = (.error e, [], 1) := by
          rw [retryGo, hfn]
          show (if o.shouldRetry e k = true then
              ((retryGo fn o offsets (k + 1) fuel').1,
               retryDelay o (offsets k) k :: (retryGo fn o offsets (k + 1) fuel').2.1,
               (retryGo fn o offsets (k + 1) fuel').2.2 + 1)
            else (Except.error e, [], 1)) = _
          rw [if_neg hsr]
        rw [hr]
        refine ⟨Nat.le_refl _, by show (1 : Nat) ≤ _; omega, rfl, ?_, ?_⟩
        · intro i h
          simp at h
        · intro e2 he
          cases he
          refine ⟨by simpa using hfn, Or.inr ?_⟩
          simpa using hsr

/-- Claim C5: `retryAsync` invokes the operation at most `attempts` times
(default 3); each slept delay equals
`clamp(minDelayMs · 2^(k−1) · (1 + offset), minDelayMs, maxDelayMs)` for some
offset with `|offset| ≤ jitter` (k the 1-based failed-attempt index, so the
i-th delay, 0-based, uses exponent i); all delays lie in
`[minDelayMs, maxDelayMs]`; and an error is re-raised exactly when the last
attempt failed or `shouldRetry` vetoed the retry, the raised error being the
last attempt's. -/
theorem claim_C5_retryAsync {α : Type} (o : RetryOptions) (fn : Nat → Except String α)
    (offsets : Nat → ℚ) (hj0 : 0 ≤ o.jitter) (hoff : ∀ k, |offsets k| ≤ o.jitter)
    (hmm2 : o.minDelayMs ≤ o.maxDelayMs) :
    (retryAsync o fn offsets).2.2 ≤ o.attempts ∧
    (∀ i (h : i < (retryAsync o fn offsets).2.1.length),
      ∃ off, |off| ≤ o.jitter ∧
        (retryAsync o fn offsets).2.1.get ⟨i, h⟩ =
          max (min ((o.minDelayMs * 2 ^ i) * (1 + off)) o.maxDelayMs) o.minDelayMs) ∧
    (∀ d ∈ (retryAsync o fn offsets).2.1, o.minDelayMs ≤ d ∧ d ≤ o.maxDelayMs) ∧
    (∀ e, (retryAsync o fn offsets).1 = Except.error (some e) →
      fn (retryAsync o fn offsets).2.2 = Except.error e ∧
      ((retryAsync o fn offsets).2.2 = o.attempts ∨
        o.shouldRetry e (retryAsync o fn offsets).2.2 = false)) ∧
    ((retryAsync o fn offsets).1 = Except.error none →
      o.attempts = 0 ∧ (retryAsync o fn offsets).2.2 = 0) ∧
    ({} : RetryOptions).attempts = 3 := by
  by_cases hz : o.attempts = 0
  · have hr : retryAsync o fn offsets = (.error none, [], 0) := by
      rw [retryAsync, if_pos hz]
    rw [hr]
    refine ⟨by show (0 : Nat) ≤ o.attempts; omega, ?_, ?_, ?_, fun _ => ⟨hz, rfl⟩, rfl⟩
    · intro i h
      simp at h
    · intro d hd
      simp at hd
    · intro e he
      simp at he
  · have hr : retryAsync o fn offsets =
        ((retryGo fn o offsets 1 (o.attempts - 1)).1.mapError some,
         (retryGo fn o offsets 1 (o.attempts - 1)).2.1,
         (retryGo fn o offsets 1 (o.attempts - 1)).2.2) := by
      rw [retryAsync, if_neg hz]
    obtain ⟨g1, g2, g3, g4, g5⟩ := retryGo_spec fn o offsets (o.attempts - 1) 1
    rw [hr]
    refine ⟨by show (retryGo fn o offsets 1 (o.attempts - 1)).2.2 ≤ o.attempts; omega,
      ?_, ?_, ?_, ?_, rfl⟩
    · intro i h
      have h2 : i < (retryGo fn o offsets 1 (o.attempts - 1)).2.1.length := h
      have hi := g4 i h2
      have harith : 1 + i - 1 = i := by omega
      by_cases hjp : o.jitter > 0
      · refine ⟨offsets (1 + i), hoff _, ?_⟩
        show (retryGo fn o offsets 1 (o.attempts - 1)).2.1.get ⟨i, h2⟩ = _
        rw [hi]
        unfold retryDelay
        rw [if_pos hjp, harith]
      · refine ⟨0, by simpa using hj0, ?_⟩
        show (retryGo fn o offsets 1 (o.attempts - 1)).2.1.get ⟨i, h2⟩ = _
        rw [hi]
        unfold retryDelay
        rw [if_neg hjp, harith, add_zero, mul_one]
    · intro d hd
      have hd2 : d ∈ (retryGo fn o offsets 1 (o.attempts - 1)).2.1 := hd
      obtain ⟨⟨i, h2⟩, rfl⟩ := List.mem_iff_get.mp hd2
      rw [g4 i h2]
      exact retryDelay_bounds o _ _ hmm2
    · intro e he
      have he2 : (retryGo fn o offsets 1 (o.attempts - 1)).1.mapError some =
          Except.error (some e) := he
      have hgo : (retryGo fn o offsets 1 (o.attempts - 1)).1 = Except.error e := by
        cases hg : (retryGo fn o offsets 1 (o.attempts - 1)).1 with
        | ok v => rw [hg] at he2; simp [Except.mapError] at he2
        | error e2 =>
          rw [hg] at he2
          simp only [Except.mapError] at he2
          cases he2
          rfl
      obtain ⟨h5a, h5b⟩ := g5 e hgo
      have harith : 1 + (retryGo fn o offsets 1 (o.attempts - 1)).2.2 - 1 =
          (retryGo fn o offsets 1 (o.attempts - 1)).2.2 := by omega
      rw [harith] at h5a h5b
      refine ⟨h5a, ?_⟩
      rcases h5b with h5b | h5b
      · left
        show (retryGo fn o offsets 1 (o.attempts - 1)).2.2 = o.attempts
        omega
      · right
        exact h5b
    · intro he
      have he2 : (retryGo fn o offsets 1 (o.attempts - 1)).1.mapError some =
          Except.error none := he
      cases hg : (retryGo fn o offsets 1 (o.attempts - 1)).1 with
      | ok v => rw [hg] at he2; simp [Except.mapError] at he2
      | error e2 => rw [hg] at he2; simp [Except.mapError] at he2

/-- An operation that fails on its first two invocations, for the witness. -/
def c5fn : Nat → Except String String :=
  fun k => if k < 3 then Except.error "rate limited" else Except.ok "done"

def c5offsets : Nat → ℚ := fun _ => 0

/-- Witness for Claim C5 under the default options: the invocation count is
bounded by the default 3 attempts and every slept delay is clamped. -/
theorem claim_C5_retryAsync_witness :
    (retryAsync {} c5fn c5offsets).2.2 ≤ ({} : RetryOptions).attempts ∧
    (∀ d ∈ (retryAsync {} c5fn c5offsets).2.1,
      ({} : RetryOptions).minDelayMs ≤ d ∧ d ≤ ({} : RetryOptions).maxDelayMs) :=
  ⟨(claim_C5_retryAsync {} c5fn c5offsets (by norm_num)
      (fun k => by show |(0 : ℚ)| ≤ 1 / 10; norm_num) (by norm_num)).1,
   (claim_C5_retryAsync {} c5fn c5offsets (by norm_num)
      (fun k => by show |(0 : ℚ)| ≤ 1 / 10; norm_num) (by norm_num)).2.2.1⟩

/- ===================== Heartbeat runner (heartbeat.ts) ===================== -/

inductive WakeReason where
  | interval
  | cron
  | exec
  | requested
  | retry
deriving DecidableEq

structure HeartbeatTask where
  description : String
  completed : Bool
  raw : String
  line : Nat
deriving DecidableEq

/-- The runner state fields `runOnce` reads and writes (`nextDueMs` and the
timer handle belong to the scheduling layer). -/
structure RunnerState where
  lastRunAt : Option ℚ
  lastText : Option String
  lastTextAt : Option ℚ
deriving DecidableEq

structure HeartbeatResult where
  status : String
  reason : Option String
  tasks : Option (List HeartbeatTask)
  text : Option String
deriving DecidableEq

/-- `isWithinActiveHours`, on the already-computed minutes-of-day values (the
source derives `currentMinutes` from `Date` and the window bounds from the
`HH:MM` strings; wall-clock time is outside the embedding).  `end ≤ start`
wraps past midnight. -/
def isWithinActiveHours (activeHours : Option (Nat × Nat)) (currentMinutes : Nat) : Bool :=
  match activeHours with
  | none => true
  | some (startMinutes, endMinutes) =>
    if endMinutes ≤ startMinutes then
      currentMinutes ≥ startMinutes || currentMinutes < endMinutes
    else
      currentMinutes ≥ startMinutes && currentMinutes < endMinutes

/-- `isDuplicateMessage`: false when no previous text is recorded (absent or
empty `lastText` is falsy, modelled by `none`) or the window elapsed, else a
trimmed comparison. -/
def isDuplicateMessage (st : RunnerState) (text : String) (nowMs : ℚ)
    (duplicateWindowMs : ℚ) : Bool :=
  match st.lastText, st.lastTextAt with
  | some lastText, some lastTextAt =>
    if nowMs - lastTextAt ≥ duplicateWindowMs then false
    else decide (trimL text.data = trimL lastText.data)
  | _, _ => false

/-- `runOnce(request)`: active-hours gate, empty-pending skip (except for
`exec` wakes), duplicate suppression, then state commit.  `resultText` is
the text collected from the registered callbacks; `now` and
`currentMinutes` stand for `Date.now()` and the local minutes-of-day. -/
def runOnce (activeHours : Option (Nat × Nat)) (duplicateWindowMs : ℚ) (st : RunnerState)
    (now : ℚ) (currentMinutes : Nat) (reason : WakeReason) (tasks : List HeartbeatTask)
    (resultText : Option String) : HeartbeatResult × RunnerState :=
  if ¬ isWithinActiveHours activeHours currentMinutes then
    (⟨"skipped", some "outside-active-hours", none, none⟩, st)
  else if (tasks.filter (fun t => !t.completed)).isEmpty ∧ reason ≠ WakeReason.exec then
    (⟨"skipped", some "no-pending-tasks", none, none⟩, { st with lastRunAt := some now })
  else
    match resultText with
    | some txt =>
      if isDuplicateMessage st txt now duplicateWindowMs then
        (⟨"skipped", some "duplicate-message", some (tasks.filter (fun t => !t.completed)), none⟩,
         { st with lastRunAt := some now })
      else
        (⟨"ok", none, some (tasks.filter (fun t => !t.completed)), some txt⟩,
         { st with lastRunAt := some now, lastText := some txt, lastTextAt := some now })
    | none =>
      (⟨"ok", none, some (tasks.filter (fun t => !t.completed)), none⟩,
       { st with lastRunAt := some now })

/-- Claim C6: with active hours configured and the current minutes-of-day
outside the half-open `[start, end)` window — where `end ≤ start` wraps past
midnight, i.e. inside iff `≥ start` or `< end` — `runOnce` returns
`skipped`/`outside-active-hours` and the state (in particular `lastRunAt`,
`lastText`, `lastTextAt`) is unchanged. -/
theorem claim_C6_activeHours (startM endM : Nat) (dw : ℚ) (st : RunnerState) (now : ℚ)
    (curMin : Nat) (reason : WakeReason) (tasks : List HeartbeatTask)
    (resultText : Option String)
    (hout : ¬ (if endM ≤ startM then curMin ≥ startM ∨ curMin < endM
               else curMin ≥ startM ∧ curMin < endM)) :
    runOnce (some (startM, endM)) dw st now curMin reason tasks resultText =
      (⟨"skipped", some "outside-active-hours", none, none⟩, st) := by
  have hgate : isWithinActiveHours (some (startM, endM)) curMin = false := by
    show (if endM ≤ startM then decide (curMin ≥ startM) || decide (curMin < endM)
          else decide (curMin ≥ startM) && decide (curMin < endM)) = false
    by_cases hw : endM ≤ startM
    · rw [if_pos hw] at hout ⊢
      simp only [Bool.or_eq_false_iff, decide_eq_false_iff_not]
      push_neg at hout
      omega
    · rw [if_neg hw] at hout ⊢
      simp only [Bool.and_eq_false_iff, decide_eq_false_iff_not]
      omega
  unfold runOnce
  rw [if_pos (by simp [hgate])]

/-- Witness for Claim C6: at 23:30 local (1410 minutes) with active hours
08:00–22:00 (480–1320), the run is skipped and the state untouched. -/
theorem claim_C6_activeHours_witness :
    runOnce (some (480, 1320)) 86400000 ⟨some 1000, some "hi", some 1000⟩ 2000 1410
        WakeReason.interval [⟨"task", false, "- [ ] task", 1⟩] (some "hi") =
      (⟨"skipped", some "outside-active-hours", none, none⟩,
       ⟨some 1000, some "hi", some 1000⟩) :=
  claim_C6_activeHours 480 1320 86400000 ⟨some 1000, some "hi", some 1000⟩ 2000 1410
    WakeReason.interval [⟨"task", false, "- [ ] task", 1⟩] (some "hi") (by decide)

/- ===================== Memory search (memory.ts) ===================== -/

structure MemoryEntry where
  id : String
  content : String
  source : String
  tags : List String
  createdAt : ℚ
deriving DecidableEq

structure MemorySearchResult where
  entry : MemoryEntry
  score : ℚ
  snippet : String
deriving DecidableEq

/-- `query.toLowerCase().split(whitespace).filter(Boolean)`. -/
def queryTermsOf (query : String) : List (List Char) :=
  (List.splitOnP isWSChar (lowerL query.data)).filter (fun w => !w.isEmpty)

/-- The keyword score: +1 per query term occurring in the (lowercased)
content, +0.5 more when some (lowercased) tag also contains the term. -/
def kwScore (content : List Char) (tags : List (List Char)) : List (List Char) → ℚ
  | [] => 0
  | term :: rest =>
    (if containsL content term then
      1 + (if tags.any (fun tag => containsL tag term) then 1/2 else 0)
     else 0) + kwScore content tags rest

/-- The recency boost: `Math.max(0, 1 − ageHours/720) · 0.3` where
`ageHours = (now − createdAt)/3600000`. -/
def recencyBoost (now createdAt : ℚ) : ℚ :=
  max 0 (1 - ((now - createdAt) / 3600000) / 720) * (3 / 10)

/-- `MemoryManager.search(query, limit)`: keyword-score each entry, add the
recency boost only to entries with positive keyword score, keep only those,
sort by descending score (JS sort with comparator `b.score − a.score`;
stable merge sort) and truncate to `limit`. -/
def searchMemory (entries : List MemoryEntry) (query : String) (limit : Nat) (now : ℚ) :
    List MemorySearchResult :=
  ((entries.filterMap (fun entry =>
      if 0 < kwScore (lowerL entry.content.data)
          (entry.tags.map (fun t => lowerL t.data)) (queryTermsOf query) then
        some ⟨entry,
          kwScore (lowerL entry.content.data)
            (entry.tags.map (fun t => lowerL t.data)) (queryTermsOf query)
            + recencyBoost now entry.createdAt,
          String.mk (entry.content.data.take 200)⟩
      else none)).mergeSort (fun a b => decide (b.score ≤ a.score))).take limit

theorem kwScore_nonneg (content : List Char) (tags : List (List Char)) :
    ∀ terms, 0 ≤ kwScore content tags terms := by
  intro terms
  induction terms with
  | nil => exact le_refl 0
  | cons term rest ih =>
    unfold kwScore
    have h1 : (0 : ℚ) ≤ (if containsL content term then
        1 + (if tags.any (fun tag => containsL tag term) then 1/2 else 0) else 0) := by
      split
      · split <;> norm_num
      · exact le_refl 0
    linarith

theorem kwScore_pos_iff (content : List Char) (tags : List (List Char)) :
    ∀ terms, 0 < kwScore content tags terms → ∃ t ∈ terms, containsL content t = true := by
  intro terms
  induction terms with
  | nil =>
    intro h
    norm_num [kwScore] at h
  | cons term rest ih =>
    intro h
    cases hc : containsL content term with
    | true => exact ⟨term, List.mem_cons_self _ _, hc⟩
    | false =>
      unfold kwScore at h
      rw [hc] at h
      simp only [Bool.false_eq_true, if_false, zero_add] at h
      obtain ⟨t, ht, hct⟩ := ih h
      exact ⟨t, List.mem_cons_of_mem _ ht, hct⟩

theorem recencyBoost_bounds (now createdAt : ℚ) (h : createdAt ≤ now) :
    0 ≤ recencyBoost now createdAt ∧ recencyBoost now createdAt ≤ 3 / 10 := by
  unfold recencyBoost
  constructor
  · apply mul_nonneg
    · exact le_max_left 0 _
    · norm_num
  · have hage : 0 ≤ ((now - createdAt) / 3600000) / 720 :=
      div_nonneg (div_nonneg (by linarith) (by norm_num)) (by norm_num)
    have hle : max 0 (1 - ((now - createdAt) / 3600000) / 720) ≤ 1 := by
      apply max_le
      · norm_num
      · linarith
    calc max 0 (1 - ((now - createdAt) / 3600000) / 720) * (3 / 10)
        ≤ 1 * (3 / 10) := by
          apply mul_le_mul_of_nonneg_right hle
          norm_num
      _ = 3 / 10 := one_mul _

theorem searchMemory_mem {entries : List MemoryEntry} {query : String} {limit : Nat}
    {now : ℚ} {r : MemorySearchResult} (hr : r ∈ searchMemory entries query limit now) :
    r.entry ∈ entries ∧
    0 < kwScore (lowerL r.entry.content.data)
      (r.entry.tags.map (fun t => lowerL t.data)) (queryTermsOf query) ∧
    r.score = kwScore (lowerL r.entry.content.data)
      (r.entry.tags.map (fun t => lowerL t.data)) (queryTermsOf query)
      + recencyBoost now r.entry.createdAt := by
  unfold searchMemory at hr
  have hr2 := (List.take_sublist _ _).subset hr
  rw [List.mem_mergeSort] at hr2
  obtain ⟨e, he, hf⟩ := List.mem_filterMap.mp hr2
  revert hf
  by_cases hkw : 0 < kwScore (lowerL e.content.data)
      (e.tags.map (fun t => lowerL t.data)) (queryTermsOf query)
  · rw [if_pos hkw]
    intro hf
    cases hf
    exact ⟨he, hkw, rfl⟩
  · rw [if_neg hkw]
    intro hf
    cases hf

/-- Claim C10: every returned entry has some whitespace-separated lowercased
query term occurring in its lowercased content (so a non-matching entry is
never returned, however recent); the recency boost, at most 0.3, is added
only to entries with positive keyword score; results are sorted by
descending score and truncated to `limit`. -/
theorem claim_C10_memory_search (entries : List MemoryEntry) (query : String) (limit : Nat)
    (now : ℚ) (hage : ∀ e ∈ entries, e.createdAt ≤ now) :
    (∀ r ∈ searchMemory entries query limit now,
      ∃ t ∈ queryTermsOf query, containsL (lowerL r.entry.content.data) t = true) ∧
    (∀ r ∈ searchMemory entries query limit now,
      0 < kwScore (lowerL r.entry.content.data)
        (r.entry.tags.map (fun t => lowerL t.data)) (queryTermsOf query) ∧
      ∃ b, 0 ≤ b ∧ b ≤ 3 / 10 ∧
        r.score = kwScore (lowerL r.entry.content.data)
          (r.entry.tags.map (fun t => lowerL t.data)) (queryTermsOf query) + b) ∧
    (searchMemory entries query limit now).length ≤ limit ∧
    List.Pairwise (fun a b => b.score ≤ a.score) (searchMemory entries query limit now) := by
  refine ⟨?_, ?_, ?_, ?_⟩
  · intro r hr
    obtain ⟨_, hkw, _⟩ := searchMemory_mem hr
    exact kwScore_pos_iff _ _ _ hkw
  · intro r hr
    obtain ⟨hent, hkw, hsc⟩ := searchMemory_mem hr
    obtain ⟨hb0, hb1⟩ := recencyBoost_bounds now r.entry.createdAt (hage _ hent)
    exact ⟨hkw, recencyBoost now r.entry.createdAt, hb0, hb1, hsc⟩
  · exact List.length_take_le _ _
  · unfold searchMemory
    have hsorted := @List.sorted_mergeSort MemorySearchResult
      (fun a b => decide (b.score ≤ a.score))
      (fun a b c hab hbc => by
        simp only [decide_eq_true_eq] at *
        exact le_trans hbc hab)
      (fun a b => by
        simp only [Bool.or_eq_true, decide_eq_true_eq]
        exact le_total b.score a.score)
      (entries.filterMap (fun entry =>
        if 0 < kwScore (lowerL entry.content.data)
            (entry.tags.map (fun t => lowerL t.data)) (queryTermsOf query) then
          some ⟨entry,
            kwScore (lowerL entry.content.data)
              (entry.tags.map (fun t => lowerL t.data)) (queryTermsOf query)
              + recencyBoost now entry.createdAt,
            String.mk (entry.content.data.take 200)⟩
        else none))
    have hp := (List.Pairwise.sublist (List.take_sublist limit _) hsorted)
    exact hp.imp (fun h => by simpa using h)

def c10Entries : List MemoryEntry :=
  [⟨"m1", "Remember the Deploy steps", "user", ["ops"], 0⟩,
   ⟨"m2", "totally unrelated note", "agent", [], 3599999⟩]

/-- Witness for Claim C10 on a concrete store: every hit contains a query
term and the result list respects the limit. -/
theorem claim_C10_memory_search_witness :
    (∀ r ∈ searchMemory c10Entries "deploy" 5 3600000,
      ∃ t ∈ queryTermsOf "deploy", containsL (lowerL r.entry.content.data) t = true) ∧
    (searchMemory c10Entries "deploy" 5 3600000).length ≤ 5 :=
  ⟨(claim_C10_memory_search c10Entries "deploy" 5 3600000
      (by intro e he; fin_cases he <;> norm_num [c10Entries])).1,
   (claim_C10_memory_search c10Entries "deploy" 5 3600000
      (by intro e he; fin_cases he <;> norm_num [c10Entries])).2.2.1⟩

/- ===================== Subagent spawn (agent.ts) ===================== -/

/-- Modelled from the spec: `isSubagentSessionKey` is only imported and
re-exported by the provided sources; its definition (in session-key.ts) is
missing.  Per the spec, subagent keys are the canonical keys whose tail is
`subagent:<uuid>`, i.e. keys of the form `agent:<id>:subagent:<...>`
(normalized ids cannot contain `:`). -/
def isSubagentSessionKey (key : List Char) : Bool :=
  startsWithL key "agent:".data && containsL key ":subagent:".data

/-- `buildSubagentSessionKey(agentId)` with the drawn uuid made explicit. -/
def buildSubagentSessionKey (agentId uuid : List Char) : List Char :=
  "agent:".data ++ normalizeAgentId agentId ++ ":subagent:".data ++ uuid

/-- `spawnSubagent`: refuse when the parent is itself a subagent session;
otherwise run the child (whose final text is `childText`) on a fresh child
key and produce the summary message appended to the parent session's log on
completion — a user message `[子代理摘要]\n<text sliced to 600 chars>`. -/
def spawnSubagent (parentSessionKey agentId uuid : String) (childText : String) :
    Except String (String × Message) :=
  if isSubagentSessionKey parentSessionKey.data then
    Except.error "子代理会话不能再触发子代理"
  else
    Except.ok (String.mk (buildSubagentSessionKey agentId.data uuid.data),
      ⟨"user", MsgContent.text ("[子代理摘要]\n" ++ String.mk (childText.data.take 600))⟩)

theorem containsL_nil_needle (hay : List Char) : containsL hay [] = true := by
  cases hay with
  | nil => rfl
  | cons c cs =>
    show (isPrefixL [] (c :: cs) || containsL cs []) = true
    rfl

theorem containsL_of_append (p mid q : List Char) : containsL (p ++ (mid ++ q)) mid = true := by
  induction p with
  | nil =>
    cases mid with
    | nil => exact containsL_nil_needle q
    | cons m ms =>
      show (isPrefixL (m :: ms) ((m :: ms) ++ q) || containsL (ms ++ q) (m :: ms)) = true
      rw [isPrefixL_iff_append.mpr ⟨q, rfl⟩]
      rfl
  | cons x xs ih =>
    show (isPrefixL mid (x :: (xs ++ (mid ++ q))) || containsL (xs ++ (mid ++ q)) mid) = true
    rw [ih]
    exact Bool.or_true _

/-- Claim C8 (amended): `spawnSubagent` throws when the parent session key is
itself a subagent key; otherwise the child runs on key
`agent:<id>:subagent:<uuid>` — itself a subagent key, so the child cannot
spawn — and the summary appended to the parent session is a user message
`[子代理摘要]` (the source's literal, not `[subagent summary]`) followed by a
newline and the child's final text truncated to 600 characters. -/
theorem claim_C8_spawnSubagent (parent agentId uuid childText : String) :
    (isSubagentSessionKey parent.data = true →
      spawnSubagent parent agentId uuid childText =
        Except.error "子代理会话不能再触发子代理") ∧
    (isSubagentSessionKey parent.data = false →
      spawnSubagent parent agentId uuid childText =
        Except.ok (String.mk (buildSubagentSessionKey agentId.data uuid.data),
          ⟨"user", MsgContent.text ("[子代理摘要]\n"
            ++ String.mk (childText.data.take 600))⟩)) ∧
    (String.mk (childText.data.take 600)).data.length ≤ 600 ∧
    isSubagentSessionKey (buildSubagentSessionKey agentId.data uuid.data) = true := by
  refine ⟨?_, ?_, ?_, ?_⟩
  · intro h
    unfold spawnSubagent
    rw [if_pos h]
  · intro h
    unfold spawnSubagent
    rw [if_neg (by simp [h])]
  · show (childText.data.take 600).length ≤ 600
    exact List.length_take_le _ _
  · unfold isSubagentSessionKey buildSubagentSessionKey
    have h1 : startsWithL
        ("agent:".data ++ normalizeAgentId agentId.data ++ ":subagent:".data ++ uuid.data)
        "agent:".data = true := by
      have hassoc : "agent:".data ++ normalizeAgentId agentId.data ++ ":subagent:".data
          ++ uuid.data = "agent:".data
            ++ (normalizeAgentId agentId.data ++ (":subagent:".data ++ uuid.data)) := by
        simp [List.append_assoc]
      rw [hassoc]
      exact startsWithL_append _ _
    have h2 : containsL
        ("agent:".data ++ normalizeAgentId agentId.data ++ ":subagent:".data ++ uuid.data)
        ":subagent:".data = true := by
      have hassoc : "agent:".data ++ normalizeAgentId agentId.data ++ ":subagent:".data
          ++ uuid.data = ("agent:".data ++ normalizeAgentId agentId.data)
            ++ (":subagent:".data ++ uuid.data) := by
        simp [List.append_assoc]
      rw [hassoc]
      exact containsL_of_append _ _ _
    rw [h1, h2]
    rfl

/-- Witness for Claim C8 at concrete inputs: spawning from the main session
succeeds with the Chinese summary prefix, and spawning from the resulting
child key is refused. -/
theorem claim_C8_spawnSubagent_witness :
    spawnSubagent "agent:main:main" "main" "u-1" "done" =
      Except.ok (String.mk (buildSubagentSessionKey "main".data "u-1".data),
        ⟨"user", MsgContent.text ("[子代理摘要]\n" ++ String.mk ("done".data.take 600))⟩) ∧
    spawnSubagent "agent:main:subagent:u-1" "main" "u-2" "x" =
      Except.error "子代理会话不能再触发子代理" :=
  ⟨(claim_C8_spawnSubagent "agent:main:main" "main" "u-1" "done").2.1 (by decide),
   (claim_C8_spawnSubagent "agent:main:subagent:u-1" "main" "u-2" "x").1 (by decide)⟩

/-- Counterexample to Claim C8 as stated: the appended summary message's
content carries the literal prefix `[子代理摘要]`, not `[subagent summary]`. -/
theorem claim_C8_counterexample :
    spawnSubagent "agent:main:main" "main" "u-1" "done" =
      Except.ok ("agent:main:subagent:u-1", ⟨"user", MsgContent.text "[子代理摘要]\ndone"⟩) ∧
    ("[子代理摘要]\ndone" : String) ≠ "[subagent summary]\ndone" := by
  constructor
  · rfl
  · decide
